import Mathlib

/-!
# Smart Pantry App — verification of the state/derivation core

A shallow embedding of `src/app.js` (a browser pantry tracker).  The app keeps
an inventory (a list of items), derives "soon to expire", "restock" and
"recipe feasibility" views from it, looks up the cheapest store for an item in
a static price table, and persists the inventory as a JSON string.

Modelling conventions:
* JS numbers holding integers (quantities, day counts) are `Int`;
  prices are `ℚ` (the order on the float literals of the static table agrees
  with the rational order, since all differ by ≥ 0.01).
* JS strings are `String`; `null`/absent is `Option`.
* Dates: the app stores the `YYYY-MM-DD` string of the date form field and
  converts through `new Date(...)`, extracting only year/month/day.
  We represent a stored date by its civil components (`CivilDate`, with the
  month 0-based exactly as JS `getMonth`), and assume the runtime timezone is
  UTC, so the local getters used by `daysBetween` agree with the UTC values.
* The mutating event handlers of `render` become functions from the inventory
  to a new inventory.
-/

namespace SmartPantry

/-- A civil calendar date as JS exposes it: `year`/`getFullYear`,
`month`/`getMonth` (0-based) and `day`/`getDate` (1-based). -/
structure CivilDate where
  year : Nat
  month : Nat
  day : Nat
deriving DecidableEq, Repr

/-- Inventory item, as pushed by the add-item form handler in `src/app.js`:
`{ id, name, quantity, expirationDate, barcode, regular }`. -/
structure Item where
  id : String
  name : String
  quantity : Int
  expirationDate : Option CivilDate
  barcode : Option String
  regular : Bool
deriving DecidableEq, Repr

/-- A recipe from the static `recipes` array: name, ingredients, instructions. -/
structure Recipe where
  name : String
  ingredients : List String
  instructions : String
deriving DecidableEq, Repr

/-- An entry of the static `priceData` table: `{ store, price }`. -/
structure PriceEntry where
  store : String
  price : ℚ
deriving DecidableEq, Repr

/-- The static `recipes` array of `src/app.js`. -/
def recipes : List Recipe :=
  [ { name := "Spaghetti Marinara",
      ingredients := ["spaghetti", "tomato sauce", "garlic", "olive oil"],
      instructions := "1. Cook spaghetti according to package directions.\n2. Heat tomato sauce with minced garlic in a pan with olive oil.\n3. Combine spaghetti and sauce, toss well and serve." },
    { name := "Peanut Butter Sandwich",
      ingredients := ["bread", "peanut butter", "jelly"],
      instructions := "Spread peanut butter and jelly on slices of bread and assemble. Cut diagonally and serve." },
    { name := "Omelette",
      ingredients := ["eggs", "milk", "cheese", "salt"],
      instructions := "1. Beat eggs with a splash of milk and a pinch of salt.\n2. Pour mixture into a heated, greased pan.\n3. When partly set, sprinkle cheese and fold in half. Cook until done." },
    { name := "Guacamole",
      ingredients := ["avocado", "lime", "salt", "tomato", "onion"],
      instructions := "1. Mash avocado flesh.\n2. Stir in chopped tomato, onion, salt, and lime juice.\n3. Serve with chips." },
    { name := "Caprese Salad",
      ingredients := ["tomato", "mozzarella", "basil", "olive oil", "salt"],
      instructions := "1. Slice tomatoes and mozzarella.\n2. Layer alternately on a plate with basil leaves.\n3. Drizzle olive oil and sprinkle salt before serving." },
    { name := "Fruit Smoothie",
      ingredients := ["banana", "milk", "frozen berries", "honey"],
      instructions := "Blend banana, milk, frozen berries, and honey until smooth. Serve chilled." },
    { name := "Chicken Stir‑Fry",
      ingredients := ["chicken breast", "soy sauce", "vegetables", "garlic", "rice"],
      instructions := "1. Cook rice according to package directions.\n2. Stir‑fry sliced chicken in oil until browned.\n3. Add vegetables and minced garlic and cook until tender.\n4. Stir in soy sauce and serve over rice." } ]

/-- The static `priceData` table of `src/app.js`, as an association list
(JS object keys are unique, lookup is exact string match). Prices such as
`1.5` are the rationals `15/10` etc. -/
def priceData : List (String × List PriceEntry) :=
  [ ("bread",
      [ { store := "Walmart", price := 15/10 },
        { store := "Target", price := 14/10 },
        { store := "Publix", price := 16/10 } ]),
    ("milk",
      [ { store := "Walmart", price := 2 },
        { store := "Target", price := 22/10 },
        { store := "Costco", price := 18/10 } ]),
    ("eggs",
      [ { store := "Publix", price := 25/10 },
        { store := "Walmart", price := 23/10 },
        { store := "Target", price := 26/10 } ]),
    ("tomato sauce",
      [ { store := "Publix", price := 18/10 },
        { store := "Walmart", price := 16/10 },
        { store := "Target", price := 17/10 } ]),
    ("spaghetti",
      [ { store := "Publix", price := 12/10 },
        { store := "Walmart", price := 11/10 },
        { store := "Target", price := 13/10 } ]),
    ("cheese",
      [ { store := "Publix", price := 29/10 },
        { store := "Walmart", price := 27/10 },
        { store := "Costco", price := 25/10 } ]),
    ("bananas",
      [ { store := "Publix", price := 5/10 },
        { store := "Walmart", price := 45/100 },
        { store := "Costco", price := 4/10 } ]) ]

/-- Model of the JS builtin `toLowerCase()`: lower-case each character
(ASCII case mapping, which covers every string in the static data and
matches `Char.toLower` on the characters the app compares). -/
def toLowerCase (s : String) : String :=
  ⟨s.data.map Char.toLower⟩

/-- JS object property read `priceData[key]`: `some` list when the key is
present, `none` (JS `undefined`, falsy) otherwise. -/
def priceLookup (key : String) : Option (List PriceEntry) :=
  (priceData.find? (fun p => p.1 == key)).map (fun p => p.2)

/-- The linear minimum scan of `getCheapestStoreFor`:
`let cheapest = list[0]; list.forEach(e => if (e.price < cheapest.price) cheapest = e)`. -/
def cheapestScan (list : List PriceEntry) (first : PriceEntry) : PriceEntry :=
  list.foldl (fun cheapest entry =>
    if entry.price < cheapest.price then entry else cheapest) first

/-- `getCheapestStoreFor(itemName)` from `src/app.js`: look up
`priceData[itemName.toLowerCase()]`; `null` if absent or empty; otherwise a
linear scan for the entry with the smallest price starting from `list[0]`. -/
def getCheapestStoreFor (itemName : String) : Option PriceEntry :=
  match priceLookup (toLowerCase itemName) with
  | none => none
  | some list =>
    match list with
    | [] => none
    | first :: _ => some (cheapestScan list first)

/-- `getRestockItems()` from `src/app.js`:
`inventory.filter(item => item.regular && item.quantity <= 0)`. -/
def getRestockItems (inventory : List Item) : List Item :=
  inventory.filter (fun item => item.regular && item.quantity ≤ 0)

/-- Milliseconds per day, as in `daysBetween`. -/
def msPerDay : Int := 1000 * 60 * 60 * 24

/-- Model of the JS builtin `Date.UTC(y, m0, d)` (month 0-based), in days
since the Unix epoch: month overflow is normalised into years and the day
number is computed by the standard proleptic-Gregorian civil-from-days
algorithm.  `Date.UTC` itself returns this value multiplied by `msPerDay`. -/
def utcDayNumber (y : Int) (m0 : Int) (d : Int) : Int :=
  let yn := y + m0.fdiv 12
  let m := m0.emod 12
  let y2 := if m ≤ 1 then yn - 1 else yn
  let era := y2.fdiv 400
  let yoe := y2 - 400 * era
  let mp := (m + 10) % 12
  let doy := (153 * mp + 2).fdiv 5 + d - 1
  let doe := 365 * yoe + yoe.fdiv 4 - yoe.fdiv 100 + doy
  era * 146097 + doe - 719468

/-- `Date.UTC(year, month, day)` in milliseconds. -/
def dateUTC (c : CivilDate) : Int :=
  msPerDay * utcDayNumber (Int.ofNat c.year) (Int.ofNat c.month) (Int.ofNat c.day)

/-- `daysBetween(start, end)` from `src/app.js`:
`Math.floor((Date.UTC(end components) - Date.UTC(start components)) / msPerDay)`.
Both stamps are UTC midnights, so the float division is exact and
`Math.floor` is integer floor division. -/
def daysBetween (start «end» : CivilDate) : Int :=
  (dateUTC «end» - dateUTC start).fdiv msPerDay

/-- The expiration date used by `getSoonExpiringItems` once the `null` case
has been filtered out (`new Date(item.expirationDate)`; the default is never
reached on filtered items). -/
def expDateOf (item : Item) : CivilDate :=
  item.expirationDate.getD ⟨1970, 0, 1⟩

/-- `getSoonExpiringItems()` from `src/app.js`: filter items with a non-null
expiration date, pair each with `daysBetween(now, expireDate)`, keep those
with `daysLeft <= 5`. -/
def getSoonExpiringItems (now : CivilDate) (inventory : List Item) :
    List (Item × Int) :=
  ((inventory.filter (fun item => item.expirationDate.isSome)).map
    (fun item => (item, daysBetween now (expDateOf item)))).filter
    (fun entry => entry.2 ≤ 5)

/-- The case-insensitive ingredient match used by `getRecipeSuggestions` and
the cook handler: `item.name.toLowerCase() === ingredient.toLowerCase()`. -/
def matchesIngredient (ingredient : String) (item : Item) : Bool :=
  toLowerCase item.name == toLowerCase ingredient

/-- `inventory.find(item => item.name.toLowerCase() === ingredient.toLowerCase())`. -/
def findMatch (inventory : List Item) (ingredient : String) : Option Item :=
  inventory.find? (matchesIngredient ingredient)

/-- The push condition of `getRecipeSuggestions`:
`!found || found.quantity <= 0`. -/
def isMissing (inventory : List Item) (ingredient : String) : Bool :=
  match findMatch inventory ingredient with
  | none => true
  | some found => found.quantity ≤ 0

/-- The `missing` array built for one recipe by `getRecipeSuggestions`
(ingredients are pushed in recipe order). -/
def missingFor (inventory : List Item) (recipe : Recipe) : List String :=
  recipe.ingredients.filter (fun ingredient => isMissing inventory ingredient)

/-- `getRecipeSuggestions()` from `src/app.js`: one `{ recipe, missing }`
pair per static recipe. -/
def getRecipeSuggestions (inventory : List Item) : List (Recipe × List String) :=
  recipes.map (fun recipe => (recipe, missingFor inventory recipe))

/-- `canCook = missing.length === 0` — the Cook button is enabled exactly
when this holds (`render`, recipe table row). -/
def canCook (inventory : List Item) (recipe : Recipe) : Bool :=
  (missingFor inventory recipe).length == 0

/-- One step of the cook handler for a single ingredient: find the first
item whose name matches case-insensitively and decrement its quantity if
positive (`if (item && item.quantity > 0) item.quantity -= 1`, mutating only
the found object). -/
def decMatch (inventory : List Item) (ingredient : String) : List Item :=
  match inventory with
  | [] => []
  | item :: rest =>
    if matchesIngredient ingredient item then
      (if item.quantity > 0 then { item with quantity := item.quantity - 1 }
       else item) :: rest
    else item :: decMatch rest ingredient

/-- The cook-button handler of `render`: for each ingredient of the recipe in
order, decrement the first case-insensitively matching inventory item when
its quantity is positive. -/
def cook (inventory : List Item) (recipe : Recipe) : List Item :=
  recipe.ingredients.foldl (fun inv ing => decMatch inv ing) inventory

/-- The use-button handler of `render`: find the item with the clicked `id`
and decrement its quantity when positive (only the found object mutates). -/
def useItem (inventory : List Item) (id : String) : List Item :=
  match inventory with
  | [] => []
  | item :: rest =>
    if item.id == id then
      (if item.quantity > 0 then { item with quantity := item.quantity - 1 }
       else item) :: rest
    else item :: useItem rest id

/-- The delete-button handler of `render`:
`inventory = inventory.filter(itm => itm.id !== id)`. -/
def deleteItem (inventory : List Item) (id : String) : List Item :=
  inventory.filter (fun itm => itm.id != id)

/-- The inventory refuting the literal "in particular" part of C1: every
ingredient of the Peanut Butter Sandwich recipe has a matching item with
quantity ≥ 1, and the item with id "2" ("Bread") is a matching inventory
item for the ingredient "bread" (there are two case-insensitive matches). -/
def dupMatchInv : List Item :=
  [⟨"1", "bread", 1, none, none, false⟩,
   ⟨"2", "Bread", 1, none, none, false⟩,
   ⟨"3", "peanut butter", 1, none, none, false⟩,
   ⟨"4", "jelly", 1, none, none, false⟩]

/-- `dupMatchInv` with the quantity of item "2" zeroed. -/
def dupMatchInvZeroed : List Item :=
  [⟨"1", "bread", 1, none, none, false⟩,
   ⟨"2", "Bread", 0, none, none, false⟩,
   ⟨"3", "peanut butter", 1, none, none, false⟩,
   ⟨"4", "jelly", 1, none, none, false⟩]

/-- Index of the first element satisfying `p` (the position of the item that
JS `inventory.find(...)` returns and the cook handler mutates). -/
def firstMatchIdx (p : Item → Bool) : List Item → Option Nat
  | [] => none
  | x :: xs => if p x then some 0 else (firstMatchIdx p xs).map (fun i => i + 1)

/-- No two list entries agree after lower-casing (true of the ingredient
list of every static recipe). -/
def distinctLower : List String → Bool
  | [] => true
  | s :: rest =>
    (rest.all (fun t => !(toLowerCase t == toLowerCase s))) && distinctLower rest

/-- ASCII whitespace recognised by the model of JS `trim()`. -/
def isJsSpace (c : Char) : Bool :=
  c == ' ' || c == '\t' || c == '\n' || c == '\r' || c == '\x0b' || c == '\x0c'

/-- Model of the JS builtin `String.prototype.trim()` (ASCII whitespace). -/
def jsTrim (s : String) : String :=
  ⟨((s.data.dropWhile isJsSpace).reverse.dropWhile isJsSpace).reverse⟩

/-- Longest digit prefix of a character list as a number, `none` when the
list does not start with a digit. -/
def parseDigitsJs (cs : List Char) : Option Nat :=
  let ds := cs.takeWhile Char.isDigit
  if ds.isEmpty then none
  else some (ds.foldl (fun acc c => 10 * acc + (c.toNat - Char.toNat '0')) 0)

/-- Model of the JS builtin `parseInt(s, 10)`: skip leading whitespace, an
optional sign, then the longest digit prefix; `none` models `NaN`. -/
def parseIntJs (s : String) : Option Int :=
  match s.data.dropWhile isJsSpace with
  | '-' :: rest => (parseDigitsJs rest).map (fun n => -(n : Int))
  | '+' :: rest => (parseDigitsJs rest).map (fun n => (n : Int))
  | other => (parseDigitsJs other).map (fun n => (n : Int))

/-- The add-form submit handler of `render`: trim the name (an empty result
aborts without touching inventory or storage), parse the quantity with
`parseInt(..., 10) || 0`, turn an empty date field into `null`
(`dateField = none` models the empty string of the date input, `some d` its
`YYYY-MM-DD` value), read the checkbox (`"on"` when checked), and append one
new item with a fresh id and `barcode: null`.  The returned flag records
whether `saveInventory` ran, i.e. whether the persisted snapshot was
rewritten. -/
def addItemForm (inventory : List Item) (nameField quantityField : String)
    (dateField : Option CivilDate) (regularField : Option String)
    (newId : String) : List Item × Bool :=
  let name := jsTrim nameField
  let quantity : Int := (parseIntJs quantityField).getD 0
  let regular := regularField == some ("on")
  if name == "" then (inventory, false)
  else
    (inventory ++
        [{ id := newId, name := name, quantity := quantity,
           expirationDate := dateField, barcode := none,
           regular := regular }],
      true)

/-! ### C8/C9 : JSON persistence

The inventory is persisted with
`localStorage.setItem("inventory", JSON.stringify(inventory))` and read back
at start-up with `JSON.parse` inside `try`/`catch`.  We model the JSON data
the app exchanges with the two builtins (numbers restricted to the integers
the app stores), `JSON.stringify` as a printer and `JSON.parse` as a
recursive-descent parser over the printed grammar. -/

mutual

/-- JSON values.  Arrays and objects hold mutually inductive lists so that
structural recursion and induction stay elementary. -/
inductive Json where
  | null : Json
  | bool (b : Bool) : Json
  | num (n : Int) : Json
  | str (s : String) : Json
  | arr (elems : JsonList) : Json
  | obj (members : JsonMembers) : Json

/-- The element list of a JSON array. -/
inductive JsonList where
  | nil : JsonList
  | cons (hd : Json) (tl : JsonList) : JsonList

/-- The key/value member list of a JSON object, in insertion order as
`JSON.stringify` emits it. -/
inductive JsonMembers where
  | nil : JsonMembers
  | cons (key : String) (val : Json) (tl : JsonMembers) : JsonMembers

end

/-- The decimal digit character for `d < 10`. -/
def decDigit (d : Nat) : Char := Char.ofNat (Char.toNat '0' + d)

/-- Decimal digits of `n`, most significant first, as `String(n)` prints a
non-negative integer. -/
def natDigits (n : Nat) : List Char :=
  if _h : n < 10 then [decDigit n]
  else natDigits (n / 10) ++ [decDigit (n % 10)]
termination_by n
decreasing_by
  omega

/-- An integer as `JSON.stringify` prints it (the app only stores integral
numbers): digits with a `-` sign when negative. -/
def printInt (n : Int) : List Char :=
  if n < 0 then '-' :: natDigits (-n).toNat else natDigits n.toNat

/-- Lower-case hex digit for `v < 16`, as in the `\u00XX` escapes of
`JSON.stringify`. -/
def hexDigitChar (v : Nat) : Char :=
  if v < 10 then Char.ofNat (Char.toNat '0' + v)
  else Char.ofNat (Char.toNat 'a' + (v - 10))

/-- `JSON.stringify` string escaping for one character: `"` and `\` are
backslash-escaped, the control characters with short escapes use them, the
remaining control characters use `\u00XX`, everything else is copied. -/
def escChar (c : Char) : List Char :=
  if c = '"' then ['\\', '"']
  else if c = '\\' then ['\\', '\\']
  else if c = '\x08' then ['\\', 'b']
  else if c = '\x09' then ['\\', 't']
  else if c = '\x0a' then ['\\', 'n']
  else if c = '\x0c' then ['\\', 'f']
  else if c = '\x0d' then ['\\', 'r']
  else if c.toNat < 32 then
    ['\\', 'u', '0', '0', hexDigitChar (c.toNat / 16),
      hexDigitChar (c.toNat % 16)]
  else [c]

/-- Escape a whole character list. -/
def escList : List Char → List Char
  | [] => []
  | c :: cs => escChar c ++ escList cs

/-- The printed form of a JSON string literal. -/
def printStr (cs : List Char) : List Char :=
  '"' :: escList cs ++ ['"']

mutual

/-- `JSON.stringify` (no spacing argument, hence no whitespace). -/
def printJson : Json → List Char
  | Json.null => ['n', 'u', 'l', 'l']
  | Json.bool true => ['t', 'r', 'u', 'e']
  | Json.bool false => ['f', 'a', 'l', 's', 'e']
  | Json.num n => printInt n
  | Json.str s => printStr s.data
  | Json.arr elems => '[' :: printElems elems ++ [']']
  | Json.obj members => '\x7b' :: printMembers members ++ ['\x7d']

/-- Comma-separated array elements. -/
def printElems : JsonList → List Char
  | JsonList.nil => []
  | JsonList.cons v tl => printJson v ++ printElemsTail tl

/-- The remaining array elements, each preceded by a comma. -/
def printElemsTail : JsonList → List Char
  | JsonList.nil => []
  | JsonList.cons v tl => ',' :: (printJson v ++ printElemsTail tl)

/-- Comma-separated `"key":value` members. -/
def printMembers : JsonMembers → List Char
  | JsonMembers.nil => []
  | JsonMembers.cons k v tl =>
    printStr k.data ++ ':' :: (printJson v ++ printMembersTail tl)

/-- The remaining object members, each preceded by a comma. -/
def printMembersTail : JsonMembers → List Char
  | JsonMembers.nil => []
  | JsonMembers.cons k v tl =>
    ',' :: (printStr k.data ++ ':' :: (printJson v ++ printMembersTail tl))

end

/-- Value of a hex digit character. -/
def hexVal (c : Char) : Option Nat :=
  if '0' ≤ c ∧ c ≤ '9' then some (c.toNat - Char.toNat '0')
  else if 'a' ≤ c ∧ c ≤ 'f' then some (c.toNat - Char.toNat 'a' + 10)
  else if 'A' ≤ c ∧ c ≤ 'F' then some (c.toNat - Char.toNat 'A' + 10)
  else none

/-- One-character escapes accepted by `JSON.parse`. -/
def unescChar (c : Char) : Option Char :=
  if c = '"' then some '"'
  else if c = '\\' then some '\\'
  else if c = '/' then some '/'
  else if c = 'b' then some '\x08'
  else if c = 'f' then some '\x0c'
  else if c = 'n' then some '\x0a'
  else if c = 'r' then some '\x0d'
  else if c = 't' then some '\x09'
  else none

/-- The code point of a four-hex-digit `\u` escape. -/
def hex4 (h1 h2 h3 h4 : Char) : Option Nat :=
  match hexVal h1, hexVal h2, hexVal h3, hexVal h4 with
  | some a, some b, some c, some d =>
    some (((a * 16 + b) * 16 + c) * 16 + d)
  | _, _, _, _ => none

/-- Parse the body of a JSON string literal (after the opening quote) up to
and including the closing quote, un-escaping as `JSON.parse` does; returns
the decoded characters and the remaining input. -/
def parseStringBody : List Char → Option (List Char × List Char)
  | [] => none
  | '"' :: rest => some ([], rest)
  | '\\' :: 'u' :: h1 :: h2 :: h3 :: h4 :: rest3 =>
    match hex4 h1 h2 h3 h4 with
    | some code =>
      (parseStringBody rest3).map (fun r => (Char.ofNat code :: r.1, r.2))
    | none => none
  | '\\' :: e :: rest2 =>
    match unescChar e with
    | some c2 => (parseStringBody rest2).map (fun r => (c2 :: r.1, r.2))
    | none => none
  | ['\\'] => none
  | c :: rest => (parseStringBody rest).map (fun r => (c :: r.1, r.2))

/-- Does the input not continue with a digit (so that a digit token ends
here)? -/
def headNotDigit : List Char → Bool
  | [] => true
  | c :: _ => !c.isDigit

/-- Longest digit-prefix token: its value and the remaining input. -/
def parseNatToken (cs : List Char) : Option (Nat × List Char) :=
  let ds := cs.takeWhile Char.isDigit
  if ds.isEmpty then none
  else
    some (ds.foldl (fun acc c => 10 * acc + (c.toNat - Char.toNat '0')) 0,
      cs.drop ds.length)

mutual

/-- Recursive-descent `JSON.parse` over the grammar `JSON.stringify` emits
(integral numbers, no inter-token whitespace); the fuel bounds the nesting
and only ever needs to exceed the value size.  `none` models a thrown
`SyntaxError`. -/
def parseJson : Nat → List Char → Option (Json × List Char)
  | 0, _ => none
  | fuel + 1, cs =>
    match cs with
    | [] => none
    | c :: rest =>
      if c = 'n' then
        match rest with
        | 'u' :: 'l' :: 'l' :: r => some (Json.null, r)
        | _ => none
      else if c = 't' then
        match rest with
        | 'r' :: 'u' :: 'e' :: r => some (Json.bool true, r)
        | _ => none
      else if c = 'f' then
        match rest with
        | 'a' :: 'l' :: 's' :: 'e' :: r => some (Json.bool false, r)
        | _ => none
      else if c = '"' then
        (parseStringBody rest).map (fun r => (Json.str ⟨r.1⟩, r.2))
      else if c = '[' then
        match rest with
        | ']' :: r => some (Json.arr JsonList.nil, r)
        | _ => (parseElems fuel rest).map (fun r => (Json.arr r.1, r.2))
      else if c = '\x7b' then
        match rest with
        | '\x7d' :: r => some (Json.obj JsonMembers.nil, r)
        | _ => (parseObjMembers fuel rest).map (fun r => (Json.obj r.1, r.2))
      else if c = '-' then
        (parseNatToken rest).map (fun r => (Json.num (-(r.1 : Int)), r.2))
      else if c.isDigit then
        (parseNatToken (c :: rest)).map (fun r => (Json.num (r.1 : Int), r.2))
      else none

/-- Elements of a non-empty array, consuming the closing bracket. -/
def parseElems : Nat → List Char → Option (JsonList × List Char)
  | 0, _ => none
  | fuel + 1, cs =>
    match parseJson fuel cs with
    | none => none
    | some (v, r) =>
      match r with
      | ',' :: r2 =>
        (parseElems fuel r2).map (fun p => (JsonList.cons v p.1, p.2))
      | ']' :: r2 => some (JsonList.cons v JsonList.nil, r2)
      | _ => none

/-- Members of a non-empty object, consuming the closing brace. -/
def parseObjMembers : Nat → List Char → Option (JsonMembers × List Char)
  | 0, _ => none
  | fuel + 1, cs =>
    match cs with
    | '"' :: r0 =>
      match parseStringBody r0 with
      | none => none
      | some (k, r1) =>
        match r1 with
        | ':' :: r2 =>
          match parseJson fuel r2 with
          | none => none
          | some (v, r3) =>
            match r3 with
            | ',' :: r4 =>
              (parseObjMembers fuel r4).map
                (fun p => (JsonMembers.cons ⟨k⟩ v p.1, p.2))
            | '\x7d' :: r4 =>
              some (JsonMembers.cons ⟨k⟩ v JsonMembers.nil, r4)
            | _ => none
        | _ => none
    | _ => none

end

/-- Model of `JSON.parse` on a whole stored string: trailing input is a
syntax error; the fuel `2 * length + 2` dominates the size of any value the
input can denote. -/
def jsonParse (s : String) : Option Json :=
  match parseJson (2 * s.length + 2) s.data with
  | some (v, []) => some v
  | _ => none

/-- Two-digit zero-padded decimal, as in date-input values. -/
def pad2 (n : Nat) : List Char :=
  (if n < 10 then ['0'] else []) ++ natDigits n

/-- Four-digit zero-padded decimal, as in date-input values. -/
def pad4 (n : Nat) : List Char :=
  (if n < 10 then ['0', '0', '0']
   else if n < 100 then ['0', '0']
   else if n < 1000 then ['0']
   else []) ++ natDigits n

/-- The `YYYY-MM-DD` string a date input produces for a civil date (month
stored 0-based, printed 1-based). -/
def formatCivilDate (d : CivilDate) : String :=
  ⟨pad4 d.year ++ '-' :: (pad2 (d.month + 1) ++ '-' :: pad2 d.day)⟩

/-- Read a `YYYY-MM-DD` string back into a civil date. -/
def parseCivilDate (s : String) : Option CivilDate :=
  match parseNatToken s.data with
  | some (y, '-' :: r1) =>
    match parseNatToken r1 with
    | some (m1, '-' :: r2) =>
      match parseNatToken r2 with
      | some (d, []) => if 1 ≤ m1 then some ⟨y, m1 - 1, d⟩ else none
      | _ => none
    | _ => none
  | _ => none

/-- JSON encoding of one item, with the field order of the object literal
pushed by the add-form handler (`JSON.stringify` preserves insertion
order). -/
def encodeItem (it : Item) : Json :=
  Json.obj
    (JsonMembers.cons ("id") (Json.str it.id)
      (JsonMembers.cons ("name") (Json.str it.name)
        (JsonMembers.cons ("quantity") (Json.num it.quantity)
          (JsonMembers.cons ("expirationDate")
            (match it.expirationDate with
             | none => Json.null
             | some d => Json.str (formatCivilDate d))
            (JsonMembers.cons ("barcode")
              (match it.barcode with
               | none => Json.null
               | some b => Json.str b)
              (JsonMembers.cons ("regular") (Json.bool it.regular)
                JsonMembers.nil))))))

/-- Typed reading of one decoded item — the glue stating what "equal by
value" means for the reloaded untyped JS objects. -/
def decodeItem (j : Json) : Option Item :=
  match j with
  | Json.obj (JsonMembers.cons k1 (Json.str id)
      (JsonMembers.cons k2 (Json.str nm)
        (JsonMembers.cons k3 (Json.num q)
          (JsonMembers.cons k4 ed
            (JsonMembers.cons k5 bc
              (JsonMembers.cons k6 (Json.bool r) JsonMembers.nil)))))) =>
    if k1 = "id" ∧ k2 = "name" ∧ k3 = "quantity" ∧ k4 = "expirationDate" ∧
        k5 = "barcode" ∧ k6 = "regular" then
      let edOpt : Option (Option CivilDate) :=
        match ed with
        | Json.null => some none
        | Json.str s => (parseCivilDate s).map (fun d => some d)
        | _ => none
      let bcOpt : Option (Option String) :=
        match bc with
        | Json.null => some none
        | Json.str s => some (some s)
        | _ => none
      match edOpt, bcOpt with
      | some e, some b => some ⟨id, nm, q, e, b, r⟩
      | _, _ => none
    else none
  | _ => none

/-- Encode the whole inventory list. -/
def encodeItems : List Item → JsonList
  | [] => JsonList.nil
  | it :: rest => JsonList.cons (encodeItem it) (encodeItems rest)

/-- Decode a JSON array of items. -/
def decodeItems : JsonList → Option (List Item)
  | JsonList.nil => some []
  | JsonList.cons v tl =>
    match decodeItem v, decodeItems tl with
    | some it, some rest => some (it :: rest)
    | _, _ => none

/-- `saveInventory()` from `src/app.js`:
`localStorage.setItem("inventory", JSON.stringify(inventory))` — the string
written to storage. -/
def saveInventory (inventory : List Item) : String :=
  ⟨printJson (Json.arr (encodeItems inventory))⟩

/-- A stored JSON value read back as an inventory (typed-model glue for the
untyped JS assignment `inventory = JSON.parse(stored)`). -/
def decodeInventoryJson : Json → Option (List Item)
  | Json.arr l => decodeItems l
  | _ => none

/-- The start-up load of `src/app.js`: `inventory = []`, then if
`localStorage.getItem("inventory")` is non-null, `JSON.parse` it inside
`try`/`catch` — a parse failure is caught (logged) and the empty default
stays.  A parsed value that is not an inventory array is outside the typed
model and also maps to the default. -/
def loadInventory (stored : Option String) : List Item :=
  match stored with
  | none => []
  | some s =>
    match jsonParse s with
    | none => []
    | some j => (decodeInventoryJson j).getD []

mutual

/-- Size measure dominating the parser fuel a printed value needs. -/
def jsize : Json → Nat
  | Json.null => 1
  | Json.bool _ => 1
  | Json.num _ => 1
  | Json.str _ => 1
  | Json.arr l => 1 + jsizeL l
  | Json.obj m => 1 + jsizeM m

/-- Size measure for array elements. -/
def jsizeL : JsonList → Nat
  | JsonList.nil => 1
  | JsonList.cons v tl => 1 + jsize v + jsizeL tl

/-- Size measure for object members. -/
def jsizeM : JsonMembers → Nat
  | JsonMembers.nil => 1
  | JsonMembers.cons _ v tl => 1 + jsize v + jsizeM tl

end


/-! ### C5 : restock classification -/

/-- C5: an item is in the restock set iff its `regular` flag is set and its
quantity is ≤ 0, with no other condition; in particular a regular item with
quantity 0 is in the set exactly when it is in the inventory, and an item
with quantity 1 never is. -/
theorem restock_spec (inventory : List Item) (item : Item) :
    (item ∈ getRestockItems inventory ↔
      item ∈ inventory ∧ item.regular = true ∧ item.quantity ≤ 0) ∧
    (item.regular = true → item.quantity = 0 →
      (item ∈ getRestockItems inventory ↔ item ∈ inventory)) ∧
    (item.quantity = 1 → item ∉ getRestockItems inventory) := by
  have hmain : item ∈ getRestockItems inventory ↔
      item ∈ inventory ∧ item.regular = true ∧ item.quantity ≤ 0 := by
    simp [getRestockItems, List.mem_filter]
  refine ⟨hmain, ?_, ?_⟩
  · intro hr hq
    rw [hmain, hq]
    simp [hr]
  · intro hq hmem
    have h01 := (hmain.mp hmem).2.2
    rw [hq] at h01
    exact absurd h01 (by norm_num)

theorem restock_spec_witness :
    ({ id := "r1", name := "rice", quantity := 0, expirationDate := none,
       barcode := none, regular := true } : Item) ∈
      getRestockItems [⟨"r1", "rice", 0, none, none, true⟩] ∧
    ({ id := "r1", name := "rice", quantity := 1, expirationDate := none,
       barcode := none, regular := true } : Item) ∉
      getRestockItems [⟨"r1", "rice", 1, none, none, true⟩] := by
  constructor
  · exact ((restock_spec _ _).2.1 rfl rfl).mpr (by simp)
  · exact (restock_spec _ _).2.2 rfl

/-! ### C4 : cheapest-store lookup -/

/-- The linear scan of `getCheapestStoreFor` returns either its starting
entry (when nothing in the list is strictly cheaper) or the first list entry
that is strictly cheaper than everything before it and no more expensive
than anything in the list. -/
theorem cheapestScan_min (l : List PriceEntry) (acc : PriceEntry) :
    (cheapestScan l acc = acc ∧ ∀ e ∈ l, acc.price ≤ e.price) ∨
    (∃ l1 e l2, l = l1 ++ e :: l2 ∧ cheapestScan l acc = e ∧
      e.price < acc.price ∧ (∀ x ∈ l1, e.price < x.price) ∧
      ∀ x ∈ l, e.price ≤ x.price) := by
  induction l generalizing acc with
  | nil => exact Or.inl ⟨rfl, by simp⟩
  | cons e0 rest ih =>
    have hstep : cheapestScan (e0 :: rest) acc =
        cheapestScan rest (if e0.price < acc.price then e0 else acc) := rfl
    by_cases h : e0.price < acc.price
    · rw [hstep, if_pos h]
      rcases ih e0 with ⟨heq, hmin⟩ | ⟨l1, e, l2, hdec, heq, hlt, hpre, hall⟩
      · refine Or.inr ⟨[], e0, rest, rfl, heq, h, by simp, ?_⟩
        intro x hx
        rcases List.mem_cons.mp hx with rfl | hx
        · exact le_refl _
        · exact hmin x hx
      · refine Or.inr ⟨e0 :: l1, e, l2, by rw [hdec, List.cons_append], heq, lt_trans hlt h, ?_, ?_⟩
        · intro x hx
          rcases List.mem_cons.mp hx with rfl | hx
          · exact hlt
          · exact hpre x hx
        · intro x hx
          rcases List.mem_cons.mp hx with rfl | hx
          · exact le_of_lt hlt
          · exact hall x (hdec ▸ hx)
    · have h' : acc.price ≤ e0.price := le_of_not_lt h
      rw [hstep, if_neg h]
      rcases ih acc with ⟨heq, hmin⟩ | ⟨l1, e, l2, hdec, heq, hlt, hpre, hall⟩
      · refine Or.inl ⟨heq, ?_⟩
        intro x hx
        rcases List.mem_cons.mp hx with rfl | hx
        · exact h'
        · exact hmin x hx
      · refine Or.inr ⟨e0 :: l1, e, l2, by rw [hdec, List.cons_append], heq, hlt, ?_, ?_⟩
        · intro x hx
          rcases List.mem_cons.mp hx with rfl | hx
          · exact lt_of_lt_of_le hlt h'
          · exact hpre x hx
        · intro x hx
          rcases List.mem_cons.mp hx with rfl | hx
          · exact le_of_lt (lt_of_lt_of_le hlt h')
          · exact hall x (hdec ▸ hx)

/-- C4: cheapest-store lookup returns `none` exactly when the static price
table has no entry for the lowercased name or the entry list is empty;
otherwise it returns an entry of the list with minimum price that is the
first entry attaining that minimum (everything before it is strictly more
expensive).  In particular on the `bread` prices `[1.5, 1.4, 1.6]` it
returns Target at 1.4, and the scan started at the head of `[{A,1},{B,1}]`
returns `A`. -/
theorem cheapest_store_spec (itemName : String) :
    (getCheapestStoreFor itemName = none ↔
      priceLookup (toLowerCase itemName) = none ∨
        priceLookup (toLowerCase itemName) = some []) ∧
    (∀ e, getCheapestStoreFor itemName = some e →
      ∃ l, priceLookup (toLowerCase itemName) = some l ∧
        ∃ l1 l2, l = l1 ++ e :: l2 ∧ (∀ x ∈ l, e.price ≤ x.price) ∧
          ∀ x ∈ l1, e.price < x.price) ∧
    getCheapestStoreFor ("bread") = some { store := "Target", price := 14/10 } ∧
    cheapestScan [{ store := "A", price := 1 }, { store := "B", price := 1 }]
      { store := "A", price := 1 } = { store := "A", price := 1 } := by
  have hbread : getCheapestStoreFor ("bread") =
      some { store := "Target", price := 14/10 } := by
    have h2 : priceLookup (toLowerCase ("bread")) =
        some [{ store := "Walmart", price := 15/10 },
          { store := "Target", price := 14/10 },
          { store := "Publix", price := 16/10 }] := rfl
    rw [getCheapestStoreFor, h2]
    simp only [cheapestScan, List.foldl]
    norm_num
  have hties : cheapestScan
      [{ store := "A", price := 1 }, { store := "B", price := 1 }]
      { store := "A", price := 1 } = { store := "A", price := 1 } := by
    simp only [cheapestScan, List.foldl]
    norm_num
  refine ⟨?_, ?_, hbread, hties⟩
  · cases h : priceLookup (toLowerCase itemName) with
    | none => simp [getCheapestStoreFor, h]
    | some list =>
      cases list with
      | nil => simp [getCheapestStoreFor, h]
      | cons first rest => simp [getCheapestStoreFor, h]
  · intro e he
    cases h : priceLookup (toLowerCase itemName) with
    | none => rw [getCheapestStoreFor, h] at he; exact absurd he (by simp)
    | some list =>
      cases list with
      | nil => rw [getCheapestStoreFor, h] at he; exact absurd he (by simp)
      | cons first rest =>
        rw [getCheapestStoreFor, h] at he
        have hee : cheapestScan (first :: rest) first = e := by
          have := Option.some.inj he
          exact this
        refine ⟨first :: rest, rfl, ?_⟩
        rcases cheapestScan_min (first :: rest) first with
          ⟨heq, hmin⟩ | ⟨l1, e', l2, hdec, heq, _, hpre, hall⟩
        · refine ⟨[], rest, ?_, ?_, by simp⟩
          · rw [← hee, heq]
            rfl
          · intro x hx
            rw [← hee, heq]
            exact hmin x hx
        · have he' : e' = e := by rw [← hee, heq]
          subst he'
          exact ⟨l1, l2, hdec, hall, hpre⟩

/-! ### C3 : soon-to-expire classification -/

/-- C3: the soon-to-expire view is exactly the in-order filter of the
inventory keeping items with a non-null expiration date whose whole-day
difference from `now` is ≤ 5, each paired with that day difference;
membership is characterised accordingly, an item expiring exactly 5 days
from now is included and one expiring in 6 days is not (negative
differences, i.e. already-expired items, are included by `≤ 5`). -/
theorem soon_expiring_spec (now : CivilDate) (inventory : List Item) :
    (getSoonExpiringItems now inventory =
      inventory.filterMap (fun item =>
        match item.expirationDate with
        | none => none
        | some d =>
          if daysBetween now d ≤ 5 then some (item, daysBetween now d)
          else none)) ∧
    (∀ item dl, (item, dl) ∈ getSoonExpiringItems now inventory ↔
      item ∈ inventory ∧ ∃ d, item.expirationDate = some d ∧
        dl = daysBetween now d ∧ dl ≤ 5) ∧
    (∀ item d, item ∈ inventory → item.expirationDate = some d →
      daysBetween now d = 5 →
      (item, 5) ∈ getSoonExpiringItems now inventory) ∧
    (∀ item d dl, item.expirationDate = some d → daysBetween now d = 6 →
      (item, dl) ∉ getSoonExpiringItems now inventory) := by
  have hmain : getSoonExpiringItems now inventory =
      inventory.filterMap (fun item =>
        match item.expirationDate with
        | none => none
        | some d =>
          if daysBetween now d ≤ 5 then some (item, daysBetween now d)
          else none) := by
    induction inventory with
    | nil => rfl
    | cons item rest ih =>
      rw [List.filterMap_cons]
      cases hd : item.expirationDate with
      | none =>
        simp only [hd]
        rw [← ih]
        simp [getSoonExpiringItems, List.filter_cons, hd]
      | some d =>
        simp only [hd]
        by_cases hle : daysBetween now d ≤ 5
        · rw [if_pos hle, ← ih]
          simp [getSoonExpiringItems, List.filter_cons, List.map_cons, hd,
            expDateOf, hle]
        · rw [if_neg hle, ← ih]
          simp [getSoonExpiringItems, List.filter_cons, List.map_cons, hd,
            expDateOf, hle]
  have hmem : ∀ item dl, (item, dl) ∈ getSoonExpiringItems now inventory ↔
      item ∈ inventory ∧ ∃ d, item.expirationDate = some d ∧
        dl = daysBetween now d ∧ dl ≤ 5 := by
    intro item dl
    rw [hmain, List.mem_filterMap]
    constructor
    · rintro ⟨a, ha, hfa⟩
      cases hda : a.expirationDate with
      | none =>
        simp only [hda] at hfa
        exact Option.noConfusion hfa
      | some d =>
        simp only [hda] at hfa
        by_cases hle : daysBetween now d ≤ 5
        · rw [if_pos hle] at hfa
          obtain ⟨rfl, rfl⟩ : a = item ∧ daysBetween now d = dl := by
            have := Option.some.inj hfa
            exact ⟨congrArg Prod.fst this, congrArg Prod.snd this⟩
          exact ⟨ha, d, hda, rfl, hle⟩
        · rw [if_neg hle] at hfa
          exact absurd hfa (by simp)
    · rintro ⟨hmemi, d, hd, rfl, hle⟩
      exact ⟨item, hmemi, by rw [hd]; simp [hle]⟩
  refine ⟨hmain, hmem, ?_, ?_⟩
  · intro item d hmemi hd h5
    exact (hmem item 5).mpr ⟨hmemi, d, hd, h5.symm, by norm_num⟩
  · intro item d dl hd h6 hin
    obtain ⟨_, d', hd', rfl, hle⟩ := (hmem item dl).mp hin
    rw [hd] at hd'
    have : d = d' := Option.some.inj hd'
    subst this
    rw [h6] at hle
    exact absurd hle (by norm_num)

theorem soon_expiring_spec_witness :
    (({ id := "a", name := "milk", quantity := 1,
        expirationDate := some ⟨2026, 9, 16⟩, barcode := none,
        regular := false } : Item), (5 : Int)) ∈
      getSoonExpiringItems ⟨2026, 9, 11⟩
        [{ id := "a", name := "milk", quantity := 1,
           expirationDate := some ⟨2026, 9, 16⟩, barcode := none,
           regular := false },
         { id := "b", name := "eggs", quantity := 1,
           expirationDate := some ⟨2026, 9, 17⟩, barcode := none,
           regular := false }] ∧
    (({ id := "b", name := "eggs", quantity := 1,
        expirationDate := some ⟨2026, 9, 17⟩, barcode := none,
        regular := false } : Item), (6 : Int)) ∉
      getSoonExpiringItems ⟨2026, 9, 11⟩
        [{ id := "a", name := "milk", quantity := 1,
           expirationDate := some ⟨2026, 9, 16⟩, barcode := none,
           regular := false },
         { id := "b", name := "eggs", quantity := 1,
           expirationDate := some ⟨2026, 9, 17⟩, barcode := none,
           regular := false }] := by
  constructor
  · exact (soon_expiring_spec ⟨2026, 9, 11⟩ _).2.2.1 _ ⟨2026, 9, 16⟩
      (by simp) rfl (by decide)
  · exact (soon_expiring_spec ⟨2026, 9, 11⟩ _).2.2.2 _ ⟨2026, 9, 17⟩ 6
      rfl (by decide)

/-! ### C6 : delete-by-identifier -/

/-- On a list decomposed around the item carrying the deleted identifier,
the delete handler drops exactly that item when nothing else carries the
identifier. -/
theorem deleteItem_decomp (l1 l2 : List Item) (it : Item)
    (h1 : ∀ x ∈ l1, x.id ≠ it.id) (h2 : ∀ x ∈ l2, x.id ≠ it.id) :
    deleteItem (l1 ++ it :: l2) it.id = l1 ++ l2 := by
  rw [deleteItem, List.filter_append, List.filter_cons]
  have hit : (it.id != it.id) = false := by simp
  rw [hit]
  have hl1 : l1.filter (fun itm => itm.id != it.id) = l1 :=
    List.filter_eq_self.mpr (fun x hx => by simp [h1 x hx])
  have hl2 : l2.filter (fun itm => itm.id != it.id) = l2 :=
    List.filter_eq_self.mpr (fun x hx => by simp [h2 x hx])
  rw [hl1]
  simp only [Bool.false_eq_true, if_false, hl2]

/-- C6: on an inventory with unique identifiers, deleting an identifier that
is present removes exactly the item carrying it; every other item is kept
unchanged in its original relative order. -/
theorem delete_spec (inventory : List Item) (id : String) (it : Item)
    (huniq : inventory.Pairwise (fun a b => a.id ≠ b.id))
    (hmem : it ∈ inventory) (hid : it.id = id) :
    ∃ l1 l2, inventory = l1 ++ it :: l2 ∧ deleteItem inventory id = l1 ++ l2 := by
  obtain ⟨l1, l2, rfl⟩ := List.append_of_mem hmem
  refine ⟨l1, l2, rfl, ?_⟩
  subst hid
  rw [List.pairwise_append] at huniq
  obtain ⟨_, hcons, hcross⟩ := huniq
  have h2 := (List.pairwise_cons.mp hcons).1
  exact deleteItem_decomp l1 l2 it
    (fun x hx => hcross x hx it (List.mem_cons_self it l2))
    (fun x hx => (h2 x hx).symm)

theorem delete_spec_witness :
    ∃ l1 l2,
      ([⟨"1", "bread", 1, none, none, false⟩,
        ⟨"2", "milk", 2, none, none, true⟩,
        ⟨"3", "eggs", 3, none, none, false⟩] : List Item) =
        l1 ++ (⟨"2", "milk", 2, none, none, true⟩ : Item) :: l2 ∧
      deleteItem [⟨"1", "bread", 1, none, none, false⟩,
        ⟨"2", "milk", 2, none, none, true⟩,
        ⟨"3", "eggs", 3, none, none, false⟩] ("2") = l1 ++ l2 :=
  delete_spec _ _ _ (by simp) (by simp) rfl

/-! ### C7 : use action -/

/-- On a list decomposed around the item carrying the clicked identifier,
the use handler rewrites exactly that item (decrementing a positive
quantity, keeping a non-positive one) when no earlier item carries the
identifier. -/
theorem useItem_decomp (l1 : List Item) (it : Item) (l2 : List Item)
    (id : String) (h1 : ∀ x ∈ l1, x.id ≠ id) (hid : it.id = id) :
    useItem (l1 ++ it :: l2) id =
      l1 ++ (if it.quantity > 0 then { it with quantity := it.quantity - 1 }
        else it) :: l2 := by
  induction l1 with
  | nil =>
    simp only [List.nil_append, useItem]
    rw [if_pos (by simp [hid])]
  | cons x xs ih =>
    have hx : (x.id == id) = false := by
      simp [h1 x (List.mem_cons_self x xs)]
    simp only [List.cons_append, useItem, hx, Bool.false_eq_true, if_false,
      List.append_eq]
    rw [ih (fun y hy => h1 y (List.mem_cons_of_mem x hy))]

/-- C7: on an inventory with unique identifiers, the use action on an item
decrements that item's quantity by exactly 1 when it is positive and leaves
it unchanged otherwise (in particular quantity 0 stays 0); no other field of
the item and no other item changes, and order is preserved. -/
theorem use_spec (inventory : List Item) (it : Item)
    (huniq : inventory.Pairwise (fun a b => a.id ≠ b.id))
    (hmem : it ∈ inventory) :
    ∃ l1 l2, inventory = l1 ++ it :: l2 ∧
      useItem inventory it.id =
        l1 ++ (if it.quantity > 0 then { it with quantity := it.quantity - 1 }
          else it) :: l2 ∧
      (it.quantity = 0 → useItem inventory it.id = inventory) := by
  obtain ⟨l1, l2, rfl⟩ := List.append_of_mem hmem
  rw [List.pairwise_append] at huniq
  obtain ⟨_, _, hcross⟩ := huniq
  have hdec := useItem_decomp l1 it l2 it.id
    (fun x hx => hcross x hx it (List.mem_cons_self it l2)) rfl
  refine ⟨l1, l2, rfl, hdec, ?_⟩
  intro h0
  rw [hdec, if_neg (by rw [h0]; norm_num)]

theorem use_spec_witness :
    ∃ l1 l2,
      ([⟨"1", "bread", 2, none, none, false⟩,
        ⟨"2", "milk", 0, none, none, true⟩] : List Item) =
        l1 ++ (⟨"2", "milk", 0, none, none, true⟩ : Item) :: l2 ∧
      useItem [⟨"1", "bread", 2, none, none, false⟩,
        ⟨"2", "milk", 0, none, none, true⟩] ("2") =
        l1 ++ (if (0 : Int) > 0 then
          { (⟨"2", "milk", 0, none, none, true⟩ : Item) with
            quantity := 0 - 1 } else ⟨"2", "milk", 0, none, none, true⟩) :: l2 ∧
      ((0 : Int) = 0 →
        useItem [⟨"1", "bread", 2, none, none, false⟩,
          ⟨"2", "milk", 0, none, none, true⟩] ("2") =
          [⟨"1", "bread", 2, none, none, false⟩,
           ⟨"2", "milk", 0, none, none, true⟩]) :=
  use_spec _ ⟨"2", "milk", 0, none, none, true⟩ (by simp) (by simp)

/-! ### C1 : recipe feasibility -/

/-- `find?` skips a prefix in which nothing satisfies the predicate. -/
theorem find?_append_no_match (l1 l2 : List Item) (p : Item → Bool)
    (h1 : ∀ x ∈ l1, p x = false) : (l1 ++ l2).find? p = l2.find? p := by
  induction l1 with
  | nil => rfl
  | cons x xs ih =>
    have hx : p x = false := h1 x (List.mem_cons_self x xs)
    simp only [List.cons_append, List.find?_cons, hx]
    exact ih (fun y hy => h1 y (List.mem_cons_of_mem x hy))

/-- The push condition of `getRecipeSuggestions`, unfolded: an ingredient is
missing iff the case-insensitive lookup finds nothing or finds an item with
non-positive quantity. -/
theorem isMissing_iff (inventory : List Item) (ingredient : String) :
    isMissing inventory ingredient = true ↔
      findMatch inventory ingredient = none ∨
        ∃ it, findMatch inventory ingredient = some it ∧ it.quantity ≤ 0 := by
  cases h : findMatch inventory ingredient with
  | none => simp [isMissing, h]
  | some it => simp [isMissing, h]

/-- C1 (amended): an ingredient of a recipe is reported missing iff no
inventory item's name matches it case-insensitively or the first matching
item has quantity ≤ 0; a recipe is cookable iff its missing list is empty;
and — the amended "in particular" — for a recipe whose every ingredient has
a matching item with quantity ≥ 1, removing an ingredient's matching item
*when it is the inventory's only case-insensitive match for that
ingredient*, or zeroing that item's quantity, adds the ingredient to the
missing set (the unamended claim is refuted by
`recipe_missing_counterexample`: with a duplicate match, removing or zeroing
one matching item need not add the ingredient). -/
theorem recipe_missing_spec (inventory : List Item) (recipe : Recipe) :
    (∀ ingredient, ingredient ∈ missingFor inventory recipe ↔
      ingredient ∈ recipe.ingredients ∧
        ((∀ item ∈ inventory, matchesIngredient ingredient item = false) ∨
          ∃ it, findMatch inventory ingredient = some it ∧ it.quantity ≤ 0)) ∧
    (canCook inventory recipe = true ↔ missingFor inventory recipe = []) ∧
    (∀ ingredient l1 item l2,
      ingredient ∈ recipe.ingredients →
      (∀ ing ∈ recipe.ingredients,
        ∃ x ∈ inventory, matchesIngredient ing x = true ∧ 1 ≤ x.quantity) →
      inventory = l1 ++ item :: l2 →
      matchesIngredient ingredient item = true →
      (∀ x ∈ l1, matchesIngredient ingredient x = false) →
      (∀ x ∈ l2, matchesIngredient ingredient x = false) →
      ingredient ∉ missingFor inventory recipe ∧
        ingredient ∈ missingFor (l1 ++ l2) recipe ∧
        ingredient ∈
          missingFor (l1 ++ { item with quantity := 0 } :: l2) recipe) := by
  have hnone : ∀ ingredient, findMatch inventory ingredient = none ↔
      ∀ item ∈ inventory, matchesIngredient ingredient item = false := by
    intro ingredient
    rw [findMatch, List.find?_eq_none]
    constructor
    · intro h item hmem
      exact Bool.not_eq_true _ ▸ h item hmem
    · intro h item hmem
      rw [h item hmem]
      exact Bool.false_ne_true
  refine ⟨?_, ?_, ?_⟩
  · intro ingredient
    rw [missingFor, List.mem_filter, isMissing_iff, hnone]
  · rw [canCook, beq_iff_eq, List.length_eq_zero]
  · intro ingredient l1 item l2 hing hall hdecomp hmatch hl1 hl2
    have hfound : findMatch inventory ingredient = some item := by
      rw [hdecomp, findMatch, find?_append_no_match l1 _ _ hl1,
        List.find?_cons, hmatch]
    have hq1 : 1 ≤ item.quantity := by
      obtain ⟨x, hxmem, hxmatch, hxq⟩ := hall ingredient hing
      rw [hdecomp] at hxmem
      rcases List.mem_append.mp hxmem with hx1 | hx2
      · exact absurd hxmatch (by rw [hl1 x hx1]; exact Bool.false_ne_true)
      · rcases List.mem_cons.mp hx2 with rfl | hx3
        · exact hxq
        · exact absurd hxmatch (by rw [hl2 x hx3]; exact Bool.false_ne_true)
    refine ⟨?_, ?_, ?_⟩
    · rw [missingFor, List.mem_filter]
      rintro ⟨-, hmiss⟩
      rcases (isMissing_iff _ _).mp hmiss with hn | ⟨it, hsome, hq⟩
      · rw [hfound] at hn
        exact Option.noConfusion hn
      · rw [hfound] at hsome
        have : item = it := Option.some.inj hsome
        subst this
        omega
    · rw [missingFor, List.mem_filter]
      refine ⟨hing, (isMissing_iff _ _).mpr (Or.inl ?_)⟩
      rw [findMatch, List.find?_eq_none]
      intro x hx
      rcases List.mem_append.mp hx with hx1 | hx2
      · rw [hl1 x hx1]
        exact Bool.false_ne_true
      · rw [hl2 x hx2]
        exact Bool.false_ne_true
    · rw [missingFor, List.mem_filter]
      refine ⟨hing, (isMissing_iff _ _).mpr (Or.inr ?_)⟩
      refine ⟨{ item with quantity := 0 }, ?_, by norm_num⟩
      rw [findMatch, find?_append_no_match l1 _ _ hl1, List.find?_cons]
      have : matchesIngredient ingredient { item with quantity := 0 } =
          true := hmatch
      rw [this]

theorem recipe_missing_spec_witness :
    ("bread" : String) ∉
      missingFor [⟨"1", "bread", 1, none, none, false⟩,
        ⟨"3", "peanut butter", 1, none, none, false⟩,
        ⟨"4", "jelly", 1, none, none, false⟩]
        { name := "Peanut Butter Sandwich",
          ingredients := ["bread", "peanut butter", "jelly"],
          instructions := "Spread peanut butter and jelly on slices of bread and assemble. Cut diagonally and serve." } ∧
    ("bread" : String) ∈
      missingFor ([] ++ [⟨"3", "peanut butter", 1, none, none, false⟩,
        ⟨"4", "jelly", 1, none, none, false⟩])
        { name := "Peanut Butter Sandwich",
          ingredients := ["bread", "peanut butter", "jelly"],
          instructions := "Spread peanut butter and jelly on slices of bread and assemble. Cut diagonally and serve." } ∧
    ("bread" : String) ∈
      missingFor ([] ++
        ({ (⟨"1", "bread", 1, none, none, false⟩ : Item) with
          quantity := 0 } : Item) :: [⟨"3", "peanut butter", 1, none, none, false⟩,
        ⟨"4", "jelly", 1, none, none, false⟩])
        { name := "Peanut Butter Sandwich",
          ingredients := ["bread", "peanut butter", "jelly"],
          instructions := "Spread peanut butter and jelly on slices of bread and assemble. Cut diagonally and serve." } :=
  (recipe_missing_spec _ _).2.2 ("bread") []
    ⟨"1", "bread", 1, none, none, false⟩
    [⟨"3", "peanut butter", 1, none, none, false⟩,
     ⟨"4", "jelly", 1, none, none, false⟩]
    (by decide) (by decide) rfl (by decide) (by decide) (by decide)

/-- Counterexample to C1 as stated: the Peanut Butter Sandwich recipe is a
static recipe, every one of its ingredients has a matching inventory item
with quantity ≥ 1 in `dupMatchInv`, the item with id "2" is a matching
inventory item for its ingredient "bread" — yet removing that item (via the
app's delete handler), or zeroing its quantity, leaves the missing list
empty, so the ingredient is *not* added to the missing set. -/
theorem recipe_missing_counterexample :
    ({ name := "Peanut Butter Sandwich",
       ingredients := ["bread", "peanut butter", "jelly"],
       instructions := "Spread peanut butter and jelly on slices of bread and assemble. Cut diagonally and serve." } : Recipe) ∈ recipes ∧
    (∀ ing ∈ ["bread", "peanut butter", "jelly"],
      ∃ x ∈ dupMatchInv, matchesIngredient ing x = true ∧ 1 ≤ x.quantity) ∧
    (∃ x ∈ dupMatchInv, x.id = "2" ∧ matchesIngredient ("bread") x = true) ∧
    missingFor (deleteItem dupMatchInv ("2"))
      { name := "Peanut Butter Sandwich",
        ingredients := ["bread", "peanut butter", "jelly"],
        instructions := "Spread peanut butter and jelly on slices of bread and assemble. Cut diagonally and serve." } = [] ∧
    missingFor dupMatchInvZeroed
      { name := "Peanut Butter Sandwich",
        ingredients := ["bread", "peanut butter", "jelly"],
        instructions := "Spread peanut butter and jelly on slices of bread and assemble. Cut diagonally and serve." } = [] := by
  refine ⟨by decide, by decide, ?_, by decide, by decide⟩
  exact ⟨⟨"2", "Bread", 1, none, none, false⟩, by decide, rfl, by decide⟩

/-! ### C2 : the cook action -/

theorem firstMatchIdx_lt_length (p : Item → Bool) (l : List Item) (j : Nat)
    (h : firstMatchIdx p l = some j) : j < l.length := by
  induction l generalizing j with
  | nil => exact Option.noConfusion h
  | cons x xs ih =>
    rw [firstMatchIdx] at h
    by_cases hp : p x
    · rw [if_pos hp] at h
      rw [← Option.some.inj h]
      simp
    · rw [if_neg hp] at h
      cases hr : firstMatchIdx p xs with
      | none => rw [hr] at h; exact Option.noConfusion h
      | some k =>
        rw [hr] at h
        have : k + 1 = j := Option.some.inj h
        subst this
        simpa using ih k hr

theorem match_at_firstMatchIdx (p : Item → Bool) (l : List Item) (j : Nat)
    (h : firstMatchIdx p l = some j) (hj : j < l.length) :
    p (l.get ⟨j, hj⟩) = true := by
  induction l generalizing j with
  | nil => exact Option.noConfusion h
  | cons x xs ih =>
    rw [firstMatchIdx] at h
    by_cases hp : p x
    · rw [if_pos hp] at h
      have h0 : 0 = j := Option.some.inj h
      subst h0
      exact hp
    · rw [if_neg hp] at h
      cases hr : firstMatchIdx p xs with
      | none => rw [hr] at h; exact Option.noConfusion h
      | some k =>
        rw [hr] at h
        have : k + 1 = j := Option.some.inj h
        subst this
        exact ih k hr (by simpa using hj)

theorem find?_of_firstMatchIdx (p : Item → Bool) (l : List Item) (j : Nat)
    (h : firstMatchIdx p l = some j) (hj : j < l.length) :
    l.find? p = some (l.get ⟨j, hj⟩) := by
  induction l generalizing j with
  | nil => exact Option.noConfusion h
  | cons x xs ih =>
    rw [firstMatchIdx] at h
    by_cases hp : p x
    · rw [if_pos hp] at h
      have h0 : 0 = j := Option.some.inj h
      subst h0
      simp [List.find?_cons, hp]
    · rw [if_neg hp] at h
      cases hr : firstMatchIdx p xs with
      | none => rw [hr] at h; exact Option.noConfusion h
      | some k =>
        rw [hr] at h
        have : k + 1 = j := Option.some.inj h
        subst this
        have hk : k < xs.length := by simpa using hj
        have hfe : (x :: xs).find? p = xs.find? p := by
          simp [List.find?_cons, hp]
        rw [hfe, ih k hr hk]
        rfl

theorem firstMatchIdx_of_find? (p : Item → Bool) (l : List Item) (it : Item)
    (h : l.find? p = some it) :
    ∃ j, ∃ hj : j < l.length, firstMatchIdx p l = some j ∧ l.get ⟨j, hj⟩ = it := by
  induction l with
  | nil => exact Option.noConfusion h
  | cons x xs ih =>
    by_cases hp : p x
    · have hx : it = x := by
        have := h
        rw [List.find?_cons_of_pos _ hp] at this
        exact (Option.some.inj this).symm
      subst hx
      exact ⟨0, by simp, by rw [firstMatchIdx, if_pos hp], rfl⟩
    · have h' : xs.find? p = some it := by
        have := h
        rwa [List.find?_cons_of_neg _ hp] at this
      obtain ⟨j, hj, hidx, hget⟩ := ih h'
      refine ⟨j + 1, by simpa using hj, ?_, hget⟩
      rw [firstMatchIdx, if_neg hp, hidx]
      rfl

theorem matches_decStep (ing : String) (it : Item) :
    matchesIngredient ing
      (if it.quantity > 0 then { it with quantity := it.quantity - 1 }
       else it) = matchesIngredient ing it := by
  split <;> rfl

theorem decMatch_length (inventory : List Item) (ing : String) :
    (decMatch inventory ing).length = inventory.length := by
  induction inventory with
  | nil => rfl
  | cons item rest ih =>
    rw [decMatch]
    by_cases hm : matchesIngredient ing item
    · rw [if_pos hm]
      simp
    · rw [if_neg hm]
      simpa using ih

theorem decMatch_firstMatchIdx (inventory : List Item) (ing ing' : String) :
    firstMatchIdx (matchesIngredient ing') (decMatch inventory ing) =
      firstMatchIdx (matchesIngredient ing') inventory := by
  induction inventory with
  | nil => rfl
  | cons item rest ih =>
    rw [decMatch]
    by_cases hm : matchesIngredient ing item
    · rw [if_pos hm, firstMatchIdx, firstMatchIdx, matches_decStep]
    · rw [if_neg hm, firstMatchIdx, firstMatchIdx, ih]

theorem decMatch_get (inventory : List Item) (ing : String) (j : Nat)
    (hj : j < inventory.length) (hj2 : j < (decMatch inventory ing).length) :
    (decMatch inventory ing).get ⟨j, hj2⟩ =
      if firstMatchIdx (matchesIngredient ing) inventory = some j then
        (if (inventory.get ⟨j, hj⟩).quantity > 0 then
          { inventory.get ⟨j, hj⟩ with
            quantity := (inventory.get ⟨j, hj⟩).quantity - 1 }
         else inventory.get ⟨j, hj⟩)
      else inventory.get ⟨j, hj⟩ := by
  induction inventory generalizing j with
  | nil => exact absurd hj (by simp)
  | cons item rest ih =>
    by_cases hm : matchesIngredient ing item
    · have hd : decMatch (item :: rest) ing =
          (if item.quantity > 0 then { item with quantity := item.quantity - 1 }
           else item) :: rest := by
        rw [decMatch, if_pos hm]
      have hidx : firstMatchIdx (matchesIngredient ing) (item :: rest) =
          some 0 := by
        rw [firstMatchIdx, if_pos hm]
      cases j with
      | zero =>
        rw [hidx]
        simp only [if_pos rfl]
        have : (decMatch (item :: rest) ing).get ⟨0, hj2⟩ =
            (if item.quantity > 0 then
              { item with quantity := item.quantity - 1 } else item) := by
          rw [List.get_of_eq hd]
          rfl
        rw [this]
        rfl
      | succ k =>
        rw [hidx]
        rw [if_neg (by intro hc; exact Nat.noConfusion (Option.some.inj hc))]
        rw [List.get_of_eq hd]
        rfl
    · have hd : decMatch (item :: rest) ing = item :: decMatch rest ing := by
        rw [decMatch, if_neg hm]
      have hidx : firstMatchIdx (matchesIngredient ing) (item :: rest) =
          (firstMatchIdx (matchesIngredient ing) rest).map (fun i => i + 1) := by
        rw [firstMatchIdx, if_neg hm]
      cases j with
      | zero =>
        rw [hidx, List.get_of_eq hd]
        have hcne : (firstMatchIdx (matchesIngredient ing) rest).map
            (fun i => i + 1) ≠ some 0 := by
          cases hr : firstMatchIdx (matchesIngredient ing) rest with
          | none => simp
          | some k => simp
        rw [if_neg hcne]
        rfl
      | succ k =>
        have hk : k < rest.length := by simpa using hj
        have hk2 : k < (decMatch rest ing).length := by
          rw [decMatch_length]; exact hk
        have hstep : (decMatch (item :: rest) ing).get ⟨k + 1, hj2⟩ =
            (decMatch rest ing).get ⟨k, hk2⟩ := by
          rw [List.get_of_eq hd]
          rfl
        rw [hstep, ih k hk hk2, hidx]
        cases hr : firstMatchIdx (matchesIngredient ing) rest with
        | none =>
          rw [if_neg (by intro hc; exact Option.noConfusion hc),
            if_neg (by intro hc; exact Option.noConfusion hc)]
          rfl
        | some a =>
          by_cases hak : a = k
          · subst hak
            have hc2 : Option.map (fun i => i + 1) (some a) = some (a + 1) :=
              rfl
            rw [if_pos rfl, if_pos hc2]
            rfl
          · have hc1 : ¬ (some a = some k) := fun hc =>
              hak (Option.some.inj hc)
            have hc2 : ¬ (Option.map (fun i => i + 1) (some a) =
                some (k + 1)) := by
              intro hc
              exact hak (Nat.succ.inj (Option.some.inj hc))
            rw [if_neg hc1, if_neg hc2]
            rfl

theorem distinctLower_cons (ing : String) (rest : List String)
    (h : distinctLower (ing :: rest) = true) :
    (∀ ing' ∈ rest, toLowerCase ing' ≠ toLowerCase ing) ∧
      distinctLower rest = true := by
  simp only [distinctLower, Bool.and_eq_true, List.all_eq_true,
    Bool.not_eq_true', beq_eq_false_iff_ne] at h
  exact h

/-- Every static recipe lists case-insensitively distinct ingredients. -/
theorem recipes_distinct : ∀ r ∈ recipes, distinctLower r.ingredients = true := by
  decide

/-- Two ingredients matching the same item agree after lower-casing. -/
theorem matches_same_lower (ing ing' : String) (it : Item)
    (h1 : matchesIngredient ing it = true)
    (h2 : matchesIngredient ing' it = true) :
    toLowerCase ing = toLowerCase ing' := by
  rw [matchesIngredient, beq_iff_eq] at h1 h2
  exact h1.symm.trans h2

/-- A cookable recipe has, for each ingredient, a first case-insensitive
match with positive quantity. -/
theorem canCook_find (inventory : List Item) (recipe : Recipe)
    (h : canCook inventory recipe = true) :
    ∀ ing ∈ recipe.ingredients,
      ∃ it, findMatch inventory ing = some it ∧ it.quantity > 0 := by
  rw [canCook, beq_iff_eq, List.length_eq_zero] at h
  intro ing hmem
  have hnotmiss : ¬ (isMissing inventory ing = true) := by
    intro hm
    have hin : ing ∈ missingFor inventory recipe :=
      List.mem_filter.mpr ⟨hmem, hm⟩
    rw [h] at hin
    exact absurd hin (List.not_mem_nil ing)
  cases hf : findMatch inventory ing with
  | none => exact absurd ((isMissing_iff _ _).mpr (Or.inl hf)) hnotmiss
  | some it =>
    refine ⟨it, rfl, ?_⟩
    by_contra hq
    push_neg at hq
    exact hnotmiss ((isMissing_iff _ _).mpr (Or.inr ⟨it, hf, hq⟩))

/-- Pointwise description of the cook handler's ingredient loop over an
arbitrary list of case-insensitively distinct ingredients, each of which has
a first match with positive quantity: the first match of each ingredient is
decremented by exactly 1 (and was positive), every other position is
untouched. -/
theorem foldl_decMatch_spec (ings : List String) :
    ∀ inv : List Item, distinctLower ings = true →
    (∀ ing ∈ ings, ∃ it, findMatch inv ing = some it ∧ it.quantity > 0) →
    (ings.foldl decMatch inv).length = inv.length ∧
    ∀ j, ∀ hj : j < inv.length, ∀ hj2 : j < (ings.foldl decMatch inv).length,
      ((∃ ing ∈ ings, firstMatchIdx (matchesIngredient ing) inv = some j) →
        (ings.foldl decMatch inv).get ⟨j, hj2⟩ =
          { inv.get ⟨j, hj⟩ with
            quantity := (inv.get ⟨j, hj⟩).quantity - 1 } ∧
        (inv.get ⟨j, hj⟩).quantity > 0) ∧
      ((¬ ∃ ing ∈ ings, firstMatchIdx (matchesIngredient ing) inv = some j) →
        (ings.foldl decMatch inv).get ⟨j, hj2⟩ = inv.get ⟨j, hj⟩) := by
  induction ings with
  | nil =>
    intro inv _ _
    refine ⟨rfl, ?_⟩
    intro j hj hj2
    refine ⟨?_, fun _ => rfl⟩
    rintro ⟨ing, hmem, -⟩
    exact absurd hmem (List.not_mem_nil ing)
  | cons ing rest ih =>
    intro inv hdist hfind
    obtain ⟨hne, hdist'⟩ := distinctLower_cons ing rest hdist
    obtain ⟨it0, hf0, hq0⟩ := hfind ing (List.mem_cons_self ing rest)
    obtain ⟨j0, hj0, hidx0, hget0⟩ := firstMatchIdx_of_find? _ _ _ hf0
    have hmatch0 : matchesIngredient ing (inv.get ⟨j0, hj0⟩) = true :=
      match_at_firstMatchIdx _ _ _ hidx0 hj0
    have hlen' : (decMatch inv ing).length = inv.length :=
      decMatch_length inv ing
    have hfind' : ∀ ing' ∈ rest,
        ∃ it, findMatch (decMatch inv ing) ing' = some it ∧
          it.quantity > 0 := by
      intro ing' hmem
      obtain ⟨it', hf', hq'⟩ := hfind ing' (List.mem_cons_of_mem ing hmem)
      obtain ⟨j', hj', hidx', hget'⟩ := firstMatchIdx_of_find? _ _ _ hf'
      have hmatch' : matchesIngredient ing' (inv.get ⟨j', hj'⟩) = true :=
        match_at_firstMatchIdx _ _ _ hidx' hj'
      have hjne : j' ≠ j0 := by
        intro he
        apply hne ing' hmem
        subst he
        exact matches_same_lower ing' ing _ hmatch' hmatch0
      have hj'2 : j' < (decMatch inv ing).length := by
        rw [hlen']
        exact hj'
      have hidx'2 : firstMatchIdx (matchesIngredient ing')
          (decMatch inv ing) = some j' := by
        rw [decMatch_firstMatchIdx]
        exact hidx'
      have hget2 : (decMatch inv ing).get ⟨j', hj'2⟩ = inv.get ⟨j', hj'⟩ := by
        rw [decMatch_get inv ing j' hj' hj'2, if_neg]
        intro hc
        rw [hidx0] at hc
        exact hjne (Option.some.inj hc).symm
      refine ⟨inv.get ⟨j', hj'⟩, ?_, ?_⟩
      · rw [findMatch, find?_of_firstMatchIdx _ _ _ hidx'2 hj'2, hget2]
      · rw [hget']
        exact hq'
    obtain ⟨hlen'', hpt'⟩ := ih (decMatch inv ing) hdist' hfind'
    have hfold : (ing :: rest).foldl decMatch inv =
        rest.foldl decMatch (decMatch inv ing) := rfl
    rw [hfold]
    refine ⟨hlen''.trans hlen', ?_⟩
    intro j hj hj2
    have hj' : j < (decMatch inv ing).length := by
      rw [hlen']
      exact hj
    constructor
    · rintro ⟨ing'', hmem'', hidx''⟩
      rcases List.mem_cons.mp hmem'' with heq | hmem2
      · rw [heq] at hidx''
        have hjj0 : j = j0 := by
          rw [hidx''] at hidx0
          exact Option.some.inj hidx0
        subst hjj0
        have hnomatch : ¬ ∃ ing' ∈ rest,
            firstMatchIdx (matchesIngredient ing') (decMatch inv ing) =
              some j := by
          rintro ⟨ing', hm', hidxr⟩
          rw [decMatch_firstMatchIdx] at hidxr
          have hmr : matchesIngredient ing' (inv.get ⟨j, hj⟩) = true :=
            match_at_firstMatchIdx _ _ _ hidxr hj
          exact hne ing' hm' (matches_same_lower ing' ing _ hmr hmatch0)
        have heq1 := (hpt' j hj' hj2).2 hnomatch
        rw [heq1, decMatch_get inv ing j hj hj', if_pos hidx'']
        have hgj : inv.get ⟨j, hj⟩ = it0 := hget0
        have hq : (inv.get ⟨j, hj⟩).quantity > 0 := by
          rw [hgj]
          exact hq0
        rw [if_pos hq]
        exact ⟨rfl, hq⟩
      · have hmatch'' : matchesIngredient ing'' (inv.get ⟨j, hj⟩) = true :=
          match_at_firstMatchIdx _ _ _ hidx'' hj
        have hjne : j ≠ j0 := by
          intro he
          apply hne ing'' hmem2
          subst he
          exact matches_same_lower ing'' ing _ hmatch'' hmatch0
        have hidx2 : firstMatchIdx (matchesIngredient ing'')
            (decMatch inv ing) = some j := by
          rw [decMatch_firstMatchIdx]
          exact hidx''
        have h1 := (hpt' j hj' hj2).1 ⟨ing'', hmem2, hidx2⟩
        have hget2 : (decMatch inv ing).get ⟨j, hj'⟩ = inv.get ⟨j, hj⟩ := by
          rw [decMatch_get inv ing j hj hj', if_neg]
          intro hc
          rw [hidx0] at hc
          exact hjne (Option.some.inj hc).symm
        rw [hget2] at h1
        exact h1
    · intro hno
      have hjne : j ≠ j0 := by
        intro he
        exact hno ⟨ing, List.mem_cons_self ing rest, by rw [he]; exact hidx0⟩
      have hno' : ¬ ∃ ing' ∈ rest,
          firstMatchIdx (matchesIngredient ing') (decMatch inv ing) =
            some j := by
        rintro ⟨ing', hm', hidxr⟩
        rw [decMatch_firstMatchIdx] at hidxr
        exact hno ⟨ing', List.mem_cons_of_mem ing hm', hidxr⟩
      have h2 := (hpt' j hj' hj2).2 hno'
      rw [h2, decMatch_get inv ing j hj hj', if_neg]
      intro hc
      rw [hidx0] at hc
      exact hjne (Option.some.inj hc).symm

/-- C2: invoking Cook on a cookable static recipe decrements by exactly 1
the quantity of the inventory item that the case-insensitive lookup finds
for each ingredient (that quantity was positive, so nothing drops below 0 —
the handler decrements only when the quantity is > 0), changes no other
field and no other item, and preserves length/order. -/
theorem cook_spec (inventory : List Item) (recipe : Recipe)
    (hrec : recipe ∈ recipes) (hcook : canCook inventory recipe = true) :
    (cook inventory recipe).length = inventory.length ∧
    ∀ j, ∀ hj : j < inventory.length,
      ∀ hj2 : j < (cook inventory recipe).length,
      ((∃ ing ∈ recipe.ingredients,
          firstMatchIdx (matchesIngredient ing) inventory = some j) →
        (cook inventory recipe).get ⟨j, hj2⟩ =
          { inventory.get ⟨j, hj⟩ with
            quantity := (inventory.get ⟨j, hj⟩).quantity - 1 } ∧
        (inventory.get ⟨j, hj⟩).quantity > 0) ∧
      ((¬ ∃ ing ∈ recipe.ingredients,
          firstMatchIdx (matchesIngredient ing) inventory = some j) →
        (cook inventory recipe).get ⟨j, hj2⟩ = inventory.get ⟨j, hj⟩) := by
  have hdist : distinctLower recipe.ingredients = true :=
    recipes_distinct recipe hrec
  have hfind := canCook_find inventory recipe hcook
  exact foldl_decMatch_spec recipe.ingredients inventory hdist hfind

theorem cook_spec_witness :
    (cook [⟨"1", "bread", 2, none, none, false⟩,
      ⟨"3", "peanut butter", 1, none, none, false⟩,
      ⟨"4", "jelly", 1, none, none, false⟩]
      { name := "Peanut Butter Sandwich",
        ingredients := ["bread", "peanut butter", "jelly"],
        instructions := "Spread peanut butter and jelly on slices of bread and assemble. Cut diagonally and serve." }).length = 3 ∧
    (cook [⟨"1", "bread", 2, none, none, false⟩,
      ⟨"3", "peanut butter", 1, none, none, false⟩,
      ⟨"4", "jelly", 1, none, none, false⟩]
      { name := "Peanut Butter Sandwich",
        ingredients := ["bread", "peanut butter", "jelly"],
        instructions := "Spread peanut butter and jelly on slices of bread and assemble. Cut diagonally and serve." }).get ⟨0, by decide⟩ =
      ⟨"1", "bread", 1, none, none, false⟩ := by
  have h := cook_spec [⟨"1", "bread", 2, none, none, false⟩,
    ⟨"3", "peanut butter", 1, none, none, false⟩,
    ⟨"4", "jelly", 1, none, none, false⟩]
    { name := "Peanut Butter Sandwich",
      ingredients := ["bread", "peanut butter", "jelly"],
      instructions := "Spread peanut butter and jelly on slices of bread and assemble. Cut diagonally and serve." }
    (by decide) (by decide)
  refine ⟨h.1.trans rfl, ?_⟩
  have h0 := (h.2 0 (by decide) (by decide)).1
    ⟨"bread", by decide, by decide⟩
  exact h0.1.trans (by decide)

/-! ### C10 : add-item form submission -/

/-- C10: submitting the add-item form with a name that trims to empty
leaves the inventory unchanged and does not rewrite the persisted snapshot;
with a non-empty trimmed name exactly one item is appended carrying that
trimmed name, the `parseInt`-parsed quantity (0 when the field does not
parse), the date field (`null` when empty), a `null` barcode and the
checkbox state. -/
theorem add_form_spec (inventory : List Item)
    (nameField quantityField : String) (dateField : Option CivilDate)
    (regularField : Option String) (newId : String) :
    (jsTrim nameField = "" →
      addItemForm inventory nameField quantityField dateField regularField
        newId = (inventory, false)) ∧
    (jsTrim nameField ≠ "" →
      addItemForm inventory nameField quantityField dateField regularField
        newId =
        (inventory ++
            [{ id := newId, name := jsTrim nameField,
               quantity := (parseIntJs quantityField).getD 0,
               expirationDate := dateField, barcode := none,
               regular := regularField == some ("on") }],
          true)) := by
  constructor
  · intro h
    simp only [addItemForm]
    rw [if_pos (by rw [beq_iff_eq]; exact h)]
  · intro h
    simp only [addItemForm]
    rw [if_neg (by rw [beq_iff_eq]; exact h)]

theorem add_form_spec_witness :
    addItemForm [] ("   ") ("5") none none ("w1") = ([], false) ∧
    addItemForm [] (" milk ") ("abc") none (some ("on")) ("w2") =
      ([⟨"w2", "milk", 0, none, none, true⟩], true) := by
  constructor
  · exact (add_form_spec [] ("   ") ("5") none none ("w1")).1 (by decide)
  · exact ((add_form_spec [] (" milk ") ("abc") none (some ("on"))
      ("w2")).2 (by decide)).trans (by decide)

theorem decDigit_isDigit (d : Nat) (h : d < 10) : (decDigit d).isDigit = true := by
  interval_cases d <;> decide

theorem decDigit_val (d : Nat) (h : d < 10) :
    (decDigit d).toNat - Char.toNat '0' = d := by
  interval_cases d <;> decide

theorem natDigits_ne_nil (n : Nat) : natDigits n ≠ [] := by
  rw [natDigits]
  split
  · simp
  · simp

theorem natDigits_all_digit (n : Nat) :
    ∀ c ∈ natDigits n, c.isDigit = true := by
  induction n using Nat.strong_induction_on with
  | _ n ih =>
    rw [natDigits]
    split
    · next h =>
      intro c hc
      rw [List.mem_singleton] at hc
      subst hc
      exact decDigit_isDigit n h
    · next h =>
      intro c hc
      rw [List.mem_append] at hc
      rcases hc with hc | hc
      · exact ih (n / 10) (by omega) c hc
      · rw [List.mem_singleton] at hc
        subst hc
        exact decDigit_isDigit (n % 10) (by omega)

theorem natDigits_foldl (n : Nat) : ∀ acc : Nat,
    (natDigits n).foldl (fun a c => 10 * a + (c.toNat - Char.toNat '0')) acc =
      acc * 10 ^ (natDigits n).length + n := by
  induction n using Nat.strong_induction_on with
  | _ n ih =>
    intro acc
    rw [natDigits]
    split
    · next h =>
      simp only [List.foldl_cons, List.foldl_nil, List.length_singleton,
        pow_one, decDigit_val n h]
      omega
    · next h =>
      rw [List.foldl_append, ih (n / 10) (by omega) acc]
      simp only [List.foldl_cons, List.foldl_nil, List.length_append,
        List.length_singleton, decDigit_val (n % 10) (by omega)]
      have hpow : (10 : Nat) ^ ((natDigits (n / 10)).length + 1) =
          10 ^ (natDigits (n / 10)).length * 10 := pow_succ 10 _
      rw [hpow]
      have hdm := Nat.div_add_mod n 10
      generalize (10 : Nat) ^ (natDigits (n / 10)).length = k
      ring_nf
      omega

theorem takeWhile_digits (ds rest : List Char)
    (hall : ∀ c ∈ ds, c.isDigit = true) (hrest : headNotDigit rest = true) :
    (ds ++ rest).takeWhile Char.isDigit = ds := by
  induction ds with
  | nil =>
    cases rest with
    | nil => rfl
    | cons c cs =>
      have hc : c.isDigit = false := by
        have := hrest
        rw [headNotDigit] at this
        simpa using this
      simp [List.takeWhile_cons, hc]
  | cons c cs ih =>
    have hc := hall c (List.mem_cons_self c cs)
    simp [List.takeWhile_cons, hc,
      ih (fun x hx => hall x (List.mem_cons_of_mem c hx))]

theorem parseNatToken_spec (ds rest : List Char) (n : Nat)
    (hall : ∀ c ∈ ds, c.isDigit = true) (hne : ds ≠ [])
    (hval : ds.foldl (fun a c => 10 * a + (c.toNat - Char.toNat '0')) 0 = n)
    (hrest : headNotDigit rest = true) :
    parseNatToken (ds ++ rest) = some (n, rest) := by
  have htw := takeWhile_digits ds rest hall hrest
  have hemp : ds.isEmpty = false := by
    cases ds with
    | nil => exact absurd rfl hne
    | cons c cs => rfl
  simp only [parseNatToken, htw, hemp, Bool.false_eq_true, if_false, hval,
    List.drop_left]

theorem parseNatToken_natDigits (n : Nat) (rest : List Char)
    (hrest : headNotDigit rest = true) :
    parseNatToken (natDigits n ++ rest) = some (n, rest) := by
  refine parseNatToken_spec _ _ _ (natDigits_all_digit n) (natDigits_ne_nil n)
    ?_ hrest
  have := natDigits_foldl n 0
  simpa using this

theorem foldl_zero_pad (zs ds : List Char) (hz : ∀ c ∈ zs, c = '0') :
    (zs ++ ds).foldl (fun a c => 10 * a + (c.toNat - Char.toNat '0')) 0 =
      ds.foldl (fun a c => 10 * a + (c.toNat - Char.toNat '0')) 0 := by
  induction zs with
  | nil => rfl
  | cons z zs ih =>
    have hz0 : z = '0' := hz z (List.mem_cons_self z zs)
    subst hz0
    have hstep : (10 : Nat) * 0 + (Char.toNat '0' - Char.toNat '0') = 0 := by
      decide
    simp only [List.cons_append, List.foldl_cons, hstep]
    exact ih (fun c hc => hz c (List.mem_cons_of_mem _ hc))

theorem parseNatToken_zeros (zs : List Char) (n : Nat) (rest : List Char)
    (hz : ∀ c ∈ zs, c = '0') (hrest : headNotDigit rest = true) :
    parseNatToken ((zs ++ natDigits n) ++ rest) = some (n, rest) := by
  refine parseNatToken_spec _ _ _ ?_ ?_ ?_ hrest
  · intro c hc
    rw [List.mem_append] at hc
    rcases hc with hc | hc
    · rw [hz c hc]
      decide
    · exact natDigits_all_digit n c hc
  · simp [natDigits_ne_nil n]
  · rw [foldl_zero_pad zs _ hz]
    have := natDigits_foldl n 0
    simpa using this

theorem parseNatToken_pad2 (n : Nat) (rest : List Char)
    (hrest : headNotDigit rest = true) :
    parseNatToken (pad2 n ++ rest) = some (n, rest) := by
  rw [pad2]
  refine parseNatToken_zeros _ n rest ?_ hrest
  split <;> intro c hc <;> simp_all

theorem parseNatToken_pad4 (n : Nat) (rest : List Char)
    (hrest : headNotDigit rest = true) :
    parseNatToken (pad4 n ++ rest) = some (n, rest) := by
  rw [pad4]
  refine parseNatToken_zeros _ n rest ?_ hrest
  split
  · intro c hc
    simp_all
  · split
    · intro c hc
      simp_all
    · split <;> intro c hc <;> simp_all

/-- Reading back the date string written for a civil date recovers it. -/
theorem parseCivilDate_format (d : CivilDate) :
    parseCivilDate (formatCivilDate d) = some d := by
  obtain ⟨y, m, day⟩ := d
  have h1 : parseNatToken (pad4 y ++
      ('-' :: (pad2 (m + 1) ++ '-' :: pad2 day))) =
      some (y, '-' :: (pad2 (m + 1) ++ '-' :: pad2 day)) :=
    parseNatToken_pad4 y _ rfl
  have h2 : parseNatToken (pad2 (m + 1) ++ ('-' :: pad2 day)) =
      some (m + 1, '-' :: pad2 day) := parseNatToken_pad2 (m + 1) _ rfl
  have h3 : parseNatToken (pad2 day ++ ([] : List Char)) =
      some (day, []) := parseNatToken_pad2 day [] rfl
  rw [List.append_nil] at h3
  show parseCivilDate ⟨pad4 y ++ '-' :: (pad2 (m + 1) ++ '-' :: pad2 day)⟩ =
    some ⟨y, m, day⟩
  rw [parseCivilDate]
  simp only [h1, h2, h3]
  rw [if_pos (by omega)]
  simp

theorem hexVal_hexDigitChar (v : Nat) (h : v < 16) :
    hexVal (hexDigitChar v) = some v := by
  interval_cases v <;> decide

/-- Un-escaping the escaped form of any character list (followed by the
closing quote) recovers it, leaving the rest of the input. -/
theorem parseStringBody_escList (cs : List Char) : ∀ rest : List Char,
    parseStringBody (escList cs ++ ('"' :: rest)) = some (cs, rest) := by
  induction cs with
  | nil =>
    intro rest
    rw [escList, List.nil_append]
    rfl
  | cons c cs' ih =>
    intro rest
    rw [escList, List.append_assoc]
    by_cases h1 : c = '"'
    · subst h1
      rw [show escChar '"' = ['\\', '"'] from rfl]
      show (parseStringBody (escList cs' ++ '"' :: rest)).map
        (fun r => ('"' :: r.1, r.2)) = some ('"' :: cs', rest)
      rw [ih]
      rfl
    · by_cases h2 : c = '\\'
      · subst h2
        rw [show escChar '\\' = ['\\', '\\'] from rfl]
        show (parseStringBody (escList cs' ++ '"' :: rest)).map
          (fun r => ('\\' :: r.1, r.2)) = some ('\\' :: cs', rest)
        rw [ih]
        rfl
      · by_cases h3 : c = '\x08'
        · subst h3
          rw [show escChar '\x08' = ['\\', 'b'] from rfl]
          show (parseStringBody (escList cs' ++ '"' :: rest)).map
            (fun r => ('\x08' :: r.1, r.2)) = some ('\x08' :: cs', rest)
          rw [ih]
          rfl
        · by_cases h4 : c = '\x09'
          · subst h4
            rw [show escChar '\x09' = ['\\', 't'] from rfl]
            show (parseStringBody (escList cs' ++ '"' :: rest)).map
              (fun r => ('\x09' :: r.1, r.2)) = some ('\x09' :: cs', rest)
            rw [ih]
            rfl
          · by_cases h5 : c = '\x0a'
            · subst h5
              rw [show escChar '\x0a' = ['\\', 'n'] from rfl]
              show (parseStringBody (escList cs' ++ '"' :: rest)).map
                (fun r => ('\x0a' :: r.1, r.2)) = some ('\x0a' :: cs', rest)
              rw [ih]
              rfl
            · by_cases h6 : c = '\x0c'
              · subst h6
                rw [show escChar '\x0c' = ['\\', 'f'] from rfl]
                show (parseStringBody (escList cs' ++ '"' :: rest)).map
                  (fun r => ('\x0c' :: r.1, r.2)) = some ('\x0c' :: cs', rest)
                rw [ih]
                rfl
              · by_cases h7 : c = '\x0d'
                · subst h7
                  rw [show escChar '\x0d' = ['\\', 'r'] from rfl]
                  show (parseStringBody (escList cs' ++ '"' :: rest)).map
                    (fun r => ('\x0d' :: r.1, r.2)) =
                    some ('\x0d' :: cs', rest)
                  rw [ih]
                  rfl
                · by_cases h8 : c.toNat < 32
                  · have hesc : escChar c = ['\\', 'u', '0', '0',
                        hexDigitChar (c.toNat / 16),
                        hexDigitChar (c.toNat % 16)] := by
                      rw [escChar, if_neg h1, if_neg h2, if_neg h3,
                        if_neg h4, if_neg h5, if_neg h6, if_neg h7,
                        if_pos h8]
                    rw [hesc]
                    have hdiv : hexVal (hexDigitChar (c.toNat / 16)) =
                        some (c.toNat / 16) :=
                      hexVal_hexDigitChar _ (by omega)
                    have hmod : hexVal (hexDigitChar (c.toNat % 16)) =
                        some (c.toNat % 16) :=
                      hexVal_hexDigitChar _ (Nat.mod_lt _ (by norm_num))
                    have hh : hex4 '0' '0' (hexDigitChar (c.toNat / 16))
                        (hexDigitChar (c.toNat % 16)) = some c.toNat := by
                      rw [hex4.eq_def, hdiv, hmod]
                      show some (((0 * 16 + 0) * 16 + c.toNat / 16) * 16 +
                        c.toNat % 16) = some c.toNat
                      congr 1
                      omega
                    show (match hex4 '0' '0' (hexDigitChar (c.toNat / 16))
                        (hexDigitChar (c.toNat % 16)) with
                      | some code =>
                        (parseStringBody (escList cs' ++ '"' :: rest)).map
                          (fun r => (Char.ofNat code :: r.1, r.2))
                      | none => none) = some (c :: cs', rest)
                    rw [hh]
                    show (parseStringBody (escList cs' ++ '"' :: rest)).map
                      (fun r => (Char.ofNat c.toNat :: r.1, r.2)) =
                      some (c :: cs', rest)
                    rw [ih, Char.ofNat_toNat]
                    rfl
                  · have hesc : escChar c = [c] := by
                      rw [escChar, if_neg h1, if_neg h2, if_neg h3,
                        if_neg h4, if_neg h5, if_neg h6, if_neg h7,
                        if_neg h8]
                    rw [hesc]
                    rw [parseStringBody.eq_def]
                    split
                    · next heq => simp at heq
                    · next heq =>
                      rw [List.singleton_append] at heq
                      exact absurd (List.head_eq_of_cons_eq heq) h1
                    · next heq =>
                      rw [List.singleton_append] at heq
                      exact absurd (List.head_eq_of_cons_eq heq) h2
                    · next heq =>
                      rw [List.singleton_append] at heq
                      exact absurd (List.head_eq_of_cons_eq heq) h2
                    · next heq =>
                      rw [List.singleton_append] at heq
                      exact absurd (List.head_eq_of_cons_eq heq) h2
                    · next heq =>
                      rw [List.singleton_append] at heq
                      rw [← List.head_eq_of_cons_eq heq,
                        ← List.tail_eq_of_cons_eq heq, ih]
                      rfl

theorem printJson_ne_nil (v : Json) : printJson v ≠ [] := by
  cases v with
  | null => simp [printJson]
  | bool b => cases b <;> simp [printJson]
  | num n =>
    rw [printJson, printInt]
    split
    · simp
    · exact natDigits_ne_nil _
  | str s => simp [printJson, printStr]
  | arr l => simp [printJson]
  | obj m => simp [printJson]

/-- The first character of any printed JSON value. -/
theorem printJson_head (v : Json) (c : Char) (cs : List Char)
    (h : printJson v = c :: cs) :
    c = 'n' ∨ c = 't' ∨ c = 'f' ∨ c = '"' ∨ c = '[' ∨ c = '\x7b' ∨
      c = '-' ∨ c.isDigit = true := by
  cases v with
  | null =>
    rw [printJson] at h
    exact Or.inl (List.head_eq_of_cons_eq h).symm
  | bool b =>
    cases b <;> rw [printJson] at h
    · exact Or.inr (Or.inr (Or.inl (List.head_eq_of_cons_eq h).symm))
    · exact Or.inr (Or.inl (List.head_eq_of_cons_eq h).symm)
  | num n =>
    rw [printJson, printInt] at h
    split at h
    · exact Or.inr (Or.inr (Or.inr (Or.inr (Or.inr (Or.inr (Or.inl
        (List.head_eq_of_cons_eq h).symm))))))
    · refine Or.inr (Or.inr (Or.inr (Or.inr (Or.inr (Or.inr (Or.inr ?_))))))
      have hc : c ∈ natDigits n.toNat := by
        rw [h]
        exact List.mem_cons_self c cs
      exact natDigits_all_digit _ c hc
  | str s =>
    rw [printJson, printStr] at h
    exact Or.inr (Or.inr (Or.inr (Or.inl
      (List.head_eq_of_cons_eq h).symm)))
  | arr l =>
    rw [printJson] at h
    exact Or.inr (Or.inr (Or.inr (Or.inr (Or.inl
      (List.head_eq_of_cons_eq h).symm))))
  | obj m =>
    rw [printJson] at h
    exact Or.inr (Or.inr (Or.inr (Or.inr (Or.inr (Or.inl
      (List.head_eq_of_cons_eq h).symm)))))

theorem jsize_pos (v : Json) : 1 ≤ jsize v := by
  cases v <;> simp [jsize]

theorem jsizeL_pos (l : JsonList) : 1 ≤ jsizeL l := by
  cases l <;> simp [jsizeL] <;> omega

theorem jsizeM_pos (m : JsonMembers) : 1 ≤ jsizeM m := by
  cases m <;> simp [jsizeM] <;> omega

mutual

theorem jsize_le_print (v : Json) : jsize v ≤ 2 * (printJson v).length := by
  cases v with
  | null => decide
  | bool b => cases b <;> decide
  | num n => rw [jsize]; have := printJson_ne_nil (Json.num n); cases h : printJson (Json.num n) with
    | nil => exact absurd h this
    | cons c cs => simp [h]; omega
  | str s => rw [jsize, printJson, printStr]; simp; omega
  | arr l =>
    rw [jsize, printJson]
    have h1 := jsizeL_le_print l
    simp only [List.length_cons, List.length_append, List.length_singleton]
    omega
  | obj m =>
    rw [jsize, printJson]
    have h1 := jsizeM_le_print m
    simp only [List.length_cons, List.length_append, List.length_singleton]
    omega

theorem jsizeL_le_print (l : JsonList) :
    jsizeL l ≤ 2 * (printElems l).length + 2 := by
  cases l with
  | nil => rw [jsizeL, printElems]; simp
  | cons v tl =>
    rw [jsizeL, printElems]
    have h1 := jsize_le_print v
    have h2 := jsizeL_le_printTail tl
    simp only [List.length_append]
    omega

theorem jsizeL_le_printTail (l : JsonList) :
    jsizeL l ≤ 2 * (printElemsTail l).length + 1 := by
  cases l with
  | nil => rw [jsizeL, printElemsTail]; simp
  | cons v tl =>
    rw [jsizeL, printElemsTail]
    have h1 := jsize_le_print v
    have h2 := jsizeL_le_printTail tl
    simp only [List.length_cons, List.length_append]
    omega

theorem jsizeM_le_print (m : JsonMembers) :
    jsizeM m ≤ 2 * (printMembers m).length + 2 := by
  cases m with
  | nil => rw [jsizeM, printMembers]; simp
  | cons k v tl =>
    rw [jsizeM, printMembers]
    have h1 := jsize_le_print v
    have h2 := jsizeM_le_printTail tl
    simp only [List.length_append, List.length_cons]
    omega

theorem jsizeM_le_printTail (m : JsonMembers) :
    jsizeM m ≤ 2 * (printMembersTail m).length + 1 := by
  cases m with
  | nil => rw [jsizeM, printMembersTail]; simp
  | cons k v tl =>
    rw [jsizeM, printMembersTail]
    have h1 := jsize_le_print v
    have h2 := jsizeM_le_printTail tl
    simp only [List.length_append, List.length_cons]
    omega

end

/-- Dispatch of the parser on a non-empty array: with the next character not
`]`, the element loop runs. -/
theorem parseJson_arr_go (fuel : Nat) (c : Char) (cs2 : List Char)
    (hc : c ≠ ']') :
    parseJson (fuel + 1) ('[' :: c :: cs2) =
      (parseElems fuel (c :: cs2)).map (fun r => (Json.arr r.1, r.2)) := by
  show (match c :: cs2 with
    | ']' :: r => some (Json.arr JsonList.nil, r)
    | _ => (parseElems fuel (c :: cs2)).map (fun r => (Json.arr r.1, r.2))) =
    (parseElems fuel (c :: cs2)).map (fun r => (Json.arr r.1, r.2))
  split
  · next r heq => exact absurd (List.head_eq_of_cons_eq heq) hc
  · rfl

/-- Dispatch of the parser on a leading digit: the number token is read. -/
theorem parseJson_digit (fuel : Nat) (c : Char) (tail : List Char)
    (hd : c.isDigit = true) :
    parseJson (fuel + 1) (c :: tail) =
      (parseNatToken (c :: tail)).map
        (fun r => (Json.num (r.1 : Int), r.2)) := by
  have hval : 48 ≤ c.toNat ∧ c.toNat ≤ 57 := by
    rw [Char.isDigit, Bool.and_eq_true] at hd
    obtain ⟨ha, hb⟩ := hd
    exact ⟨UInt32.le_toNat_of_le (by norm_num) (of_decide_eq_true ha),
      UInt32.toNat_le_of_le (by norm_num) (of_decide_eq_true hb)⟩
  have hc10 : c = '0' ∨ c = '1' ∨ c = '2' ∨ c = '3' ∨ c = '4' ∨ c = '5' ∨
      c = '6' ∨ c = '7' ∨ c = '8' ∨ c = '9' := by
    have hten : c.toNat = 48 ∨ c.toNat = 49 ∨ c.toNat = 50 ∨ c.toNat = 51 ∨
        c.toNat = 52 ∨ c.toNat = 53 ∨ c.toNat = 54 ∨ c.toNat = 55 ∨
        c.toNat = 56 ∨ c.toNat = 57 := by omega
    rcases hten with h|h|h|h|h|h|h|h|h|h
    · exact Or.inl (by rw [← Char.ofNat_toNat c, h])
    · exact Or.inr (Or.inl (by rw [← Char.ofNat_toNat c, h]))
    · exact Or.inr (Or.inr (Or.inl (by rw [← Char.ofNat_toNat c, h])))
    · exact Or.inr (Or.inr (Or.inr (Or.inl (by
        rw [← Char.ofNat_toNat c, h]))))
    · exact Or.inr (Or.inr (Or.inr (Or.inr (Or.inl (by
        rw [← Char.ofNat_toNat c, h])))))
    · exact Or.inr (Or.inr (Or.inr (Or.inr (Or.inr (Or.inl (by
        rw [← Char.ofNat_toNat c, h]))))))
    · exact Or.inr (Or.inr (Or.inr (Or.inr (Or.inr (Or.inr (Or.inl (by
        rw [← Char.ofNat_toNat c, h])))))))
    · exact Or.inr (Or.inr (Or.inr (Or.inr (Or.inr (Or.inr (Or.inr (Or.inl
        (by rw [← Char.ofNat_toNat c, h]))))))))
    · exact Or.inr (Or.inr (Or.inr (Or.inr (Or.inr (Or.inr (Or.inr (Or.inr
        (Or.inl (by rw [← Char.ofNat_toNat c, h])))))))))
    · exact Or.inr (Or.inr (Or.inr (Or.inr (Or.inr (Or.inr (Or.inr (Or.inr
        (Or.inr (by rw [← Char.ofNat_toNat c, h])))))))))
  rcases hc10 with rfl|rfl|rfl|rfl|rfl|rfl|rfl|rfl|rfl|rfl <;> rfl

/-- Round trip of the printer and parser, by induction on the parser fuel:
any fuel at least the size of the value suffices, and parsing stops exactly
at the printed value's end. -/
theorem parse_printJson (fuel : Nat) :
    (∀ v rest, jsize v ≤ fuel → headNotDigit rest = true →
      parseJson fuel (printJson v ++ rest) = some (v, rest)) ∧
    (∀ l rest, l ≠ JsonList.nil → jsizeL l ≤ fuel →
      parseElems fuel (printElems l ++ (']' :: rest)) = some (l, rest)) ∧
    (∀ m rest, m ≠ JsonMembers.nil → jsizeM m ≤ fuel →
      parseObjMembers fuel (printMembers m ++ ('\x7d' :: rest)) =
        some (m, rest)) := by
  induction fuel with
  | zero =>
    refine ⟨?_, ?_, ?_⟩
    · intro v rest hsz _
      exact absurd hsz (by have := jsize_pos v; omega)
    · intro l rest _ hsz
      exact absurd hsz (by have := jsizeL_pos l; omega)
    · intro m rest _ hsz
      exact absurd hsz (by have := jsizeM_pos m; omega)
  | succ fuel ih =>
    obtain ⟨ihA, ihB, ihC⟩ := ih
    refine ⟨?_, ?_, ?_⟩
    · intro v rest hsz htail
      cases v with
      | null => rfl
      | bool b => cases b <;> rfl
      | num n =>
        rw [printJson, printInt]
        by_cases hneg : n < 0
        · rw [if_pos hneg, List.cons_append]
          have htok := parseNatToken_natDigits (-n).toNat rest htail
          show (parseNatToken (natDigits (-n).toNat ++ rest)).map
            (fun r => (Json.num (-(r.1 : Int)), r.2)) = some (Json.num n, rest)
          rw [htok]
          show some (Json.num (-(((-n).toNat : Nat) : Int)), rest) =
            some (Json.num n, rest)
          rw [Int.toNat_of_nonneg (by omega), neg_neg]
        · rw [if_neg hneg]
          cases hnd : natDigits n.toNat with
          | nil => exact absurd hnd (natDigits_ne_nil _)
          | cons c cs =>
            have hcdig : c.isDigit = true := natDigits_all_digit _ c
              (by rw [hnd]; exact List.mem_cons_self c cs)
            rw [List.cons_append]
            rw [parseJson_digit fuel c _ hcdig]
            rw [show c :: (cs ++ rest) = natDigits n.toNat ++ rest by
              rw [hnd]; rfl]
            rw [parseNatToken_natDigits n.toNat rest htail]
            show some (Json.num ((n.toNat : Nat) : Int), rest) =
              some (Json.num n, rest)
            rw [Int.toNat_of_nonneg (by omega)]
      | str s =>
        rw [printJson, printStr]
        simp only [List.cons_append, List.append_assoc,
          List.singleton_append]
        show (parseStringBody (escList s.data ++ '"' :: rest)).map
          (fun r => (Json.str ⟨r.1⟩, r.2)) = some (Json.str s, rest)
        rw [parseStringBody_escList s.data rest]
        rfl
      | arr l =>
        cases l with
        | nil => rfl
        | cons v tl =>
          rw [printJson]
          simp only [List.cons_append, List.append_assoc,
            List.singleton_append, List.nil_append]
          obtain ⟨c, cs2, hhead⟩ : ∃ c cs2, printJson v = c :: cs2 := by
            cases h : printJson v with
            | nil => exact absurd h (printJson_ne_nil v)
            | cons a b => exact ⟨a, b, rfl⟩
          have hcne : c ≠ ']' := by
            intro hc'
            subst hc'
            rcases printJson_head v _ cs2 hhead with h|h|h|h|h|h|h|h <;>
              exact absurd h (by decide)
          have hpe : printElems (JsonList.cons v tl) ++ (']' :: rest) =
              c :: (cs2 ++ (printElemsTail tl ++ (']' :: rest))) := by
            rw [printElems, hhead]
            simp [List.append_assoc]
          rw [hpe, parseJson_arr_go fuel c _ hcne, ← hpe]
          rw [ihB (JsonList.cons v tl) rest (fun hcc =>
            JsonList.noConfusion hcc) (by rw [jsize] at hsz; omega)]
          rfl
      | obj m =>
        cases m with
        | nil => rfl
        | cons k v tl =>
          rw [printJson]
          simp only [List.cons_append, List.append_assoc,
            List.singleton_append, List.nil_append]
          have hpm : printMembers (JsonMembers.cons k v tl) ++
              ('\x7d' :: rest) = '"' :: (escList k.data ++ ('"' :: (':' ::
                (printJson v ++ (printMembersTail tl ++
                  ('\x7d' :: rest)))))) := by
            rw [printMembers, printStr]
            simp [List.append_assoc]
          rw [hpm]
          show (parseObjMembers fuel ('"' :: (escList k.data ++ ('"' ::
            (':' :: (printJson v ++ (printMembersTail tl ++
              ('\x7d' :: rest)))))))).map
            (fun r => (Json.obj r.1, r.2)) =
            some (Json.obj (JsonMembers.cons k v tl), rest)
          rw [show '"' :: (escList k.data ++ ('"' :: (':' :: (printJson v ++
            (printMembersTail tl ++ ('\x7d' :: rest)))))) =
            printMembers (JsonMembers.cons k v tl) ++ ('\x7d' :: rest) from
            hpm.symm]
          rw [ihC (JsonMembers.cons k v tl) rest (fun hcc =>
            JsonMembers.noConfusion hcc) (by rw [jsize] at hsz; omega)]
          rfl
    · intro l rest hne hsz
      cases l with
      | nil => exact absurd rfl hne
      | cons v tl =>
        rw [printElems, List.append_assoc]
        have htail2 : headNotDigit (printElemsTail tl ++ (']' :: rest)) =
            true := by
          cases tl with
          | nil => rfl
          | cons v2 tl2 => rfl
        have hszv : jsize v ≤ fuel := by
          rw [jsizeL] at hsz
          have := jsizeL_pos tl
          omega
        have h1 := ihA v (printElemsTail tl ++ (']' :: rest)) hszv htail2
        rw [parseElems, h1]
        cases tl with
        | nil => rfl
        | cons v2 tl2 =>
          show (parseElems fuel ((printJson v2 ++ printElemsTail tl2) ++
            (']' :: rest))).map (fun p => (JsonList.cons v p.1, p.2)) =
            some (JsonList.cons v (JsonList.cons v2 tl2), rest)
          rw [show (printJson v2 ++ printElemsTail tl2) ++ (']' :: rest) =
            printElems (JsonList.cons v2 tl2) ++ (']' :: rest) from by
            rw [printElems]]
          rw [ihB (JsonList.cons v2 tl2) rest (fun hcc =>
            JsonList.noConfusion hcc) (by
            rw [jsizeL] at hsz
            have := jsize_pos v
            omega)]
          rfl
    · intro m rest hne hsz
      cases m with
      | nil => exact absurd rfl hne
      | cons k v tl =>
        have hpm : printMembers (JsonMembers.cons k v tl) ++
            ('\x7d' :: rest) = '"' :: (escList k.data ++ ('"' :: (':' ::
              (printJson v ++ (printMembersTail tl ++
                ('\x7d' :: rest)))))) := by
          rw [printMembers, printStr]
          simp [List.append_assoc]
        rw [hpm]
        have hps := parseStringBody_escList k.data
          (':' :: (printJson v ++ (printMembersTail tl ++ ('\x7d' :: rest))))
        show (match parseStringBody (escList k.data ++ ('"' :: (':' ::
            (printJson v ++ (printMembersTail tl ++ ('\x7d' :: rest)))))) with
          | none => none
          | some (k2, r1) =>
            match r1 with
            | ':' :: r2 =>
              match parseJson fuel r2 with
              | none => none
              | some (v2, r3) =>
                match r3 with
                | ',' :: r4 => (parseObjMembers fuel r4).map
                    (fun p => (JsonMembers.cons ⟨k2⟩ v2 p.1, p.2))
                | '\x7d' :: r4 =>
                  some (JsonMembers.cons ⟨k2⟩ v2 JsonMembers.nil, r4)
                | _ => none
            | _ => none) = some (JsonMembers.cons k v tl, rest)
        rw [hps]
        have htl : headNotDigit (printMembersTail tl ++ ('\x7d' :: rest)) =
            true := by
          cases tl with
          | nil => rfl
          | cons k2 v2 tl2 => rfl
        have hszv : jsize v ≤ fuel := by
          rw [jsizeM] at hsz
          have := jsizeM_pos tl
          omega
        show (match parseJson fuel (printJson v ++ (printMembersTail tl ++
            ('\x7d' :: rest))) with
          | none => none
          | some (v2, r3) =>
            match r3 with
            | ',' :: r4 => (parseObjMembers fuel r4).map
                (fun p => (JsonMembers.cons ⟨k.data⟩ v2 p.1, p.2))
            | '\x7d' :: r4 =>
              some (JsonMembers.cons ⟨k.data⟩ v2 JsonMembers.nil, r4)
            | _ => none) = some (JsonMembers.cons k v tl, rest)
        rw [ihA v (printMembersTail tl ++ ('\x7d' :: rest)) hszv htl]
        cases tl with
        | nil => rfl
        | cons k2 v2 tl2 =>
          show (parseObjMembers fuel ((printStr k2.data ++ ':' ::
            (printJson v2 ++ printMembersTail tl2)) ++ ('\x7d' :: rest))).map
            (fun p => (JsonMembers.cons ⟨k.data⟩ v p.1, p.2)) =
            some (JsonMembers.cons k v (JsonMembers.cons k2 v2 tl2), rest)
          rw [show (printStr k2.data ++ ':' :: (printJson v2 ++
            printMembersTail tl2)) ++ ('\x7d' :: rest) =
            printMembers (JsonMembers.cons k2 v2 tl2) ++ ('\x7d' :: rest)
            from by rw [printMembers]]
          rw [ihC (JsonMembers.cons k2 v2 tl2) rest (fun hcc =>
            JsonMembers.noConfusion hcc) (by
            rw [jsizeM] at hsz
            have := jsize_pos v
            omega)]
          rfl

/-- `JSON.parse` recovers any value from its `JSON.stringify` output. -/
theorem jsonParse_printJson (v : Json) : jsonParse ⟨printJson v⟩ = some v := by
  have hfuel : jsize v ≤ 2 * (printJson v).length + 2 := by
    have := jsize_le_print v
    omega
  have h := (parse_printJson (2 * (printJson v).length + 2)).1 v [] hfuel rfl
  rw [List.append_nil] at h
  show (match parseJson (2 * (printJson v).length + 2) (printJson v) with
    | some (w, []) => some w
    | _ => none) = some v
  rw [h]

/-- Decoding the JSON encoding of an item recovers the item. -/
theorem decodeItem_encodeItem (it : Item) :
    decodeItem (encodeItem it) = some it := by
  obtain ⟨id, nm, q, ed, bc, rg⟩ := it
  cases ed with
  | none =>
    cases bc with
    | none => rfl
    | some b => rfl
  | some d =>
    cases bc with
    | none =>
      show (match (parseCivilDate (formatCivilDate d)).map
          (fun x => some x), (some none : Option (Option String)) with
        | some e, some b =>
          some (⟨id, nm, q, e, b, rg⟩ : Item)
        | _, _ => none) = some ⟨id, nm, q, some d, none, rg⟩
      rw [parseCivilDate_format]
      rfl
    | some b =>
      show (match (parseCivilDate (formatCivilDate d)).map
          (fun x => some x), (some (some b) : Option (Option String)) with
        | some e, some bb =>
          some (⟨id, nm, q, e, bb, rg⟩ : Item)
        | _, _ => none) = some ⟨id, nm, q, some d, some b, rg⟩
      rw [parseCivilDate_format]
      rfl

/-- Decoding the JSON encoding of a whole inventory recovers it. -/
theorem decodeItems_encodeItems (inventory : List Item) :
    decodeItems (encodeItems inventory) = some inventory := by
  induction inventory with
  | nil => rfl
  | cons it rest ih =>
    rw [encodeItems, decodeItems, decodeItem_encodeItem, ih]

/-- C8: saving the inventory (the JSON text written to the persistent
store) and reloading it as at start-up yields a list of items equal by
value to the original, for every inventory. -/
theorem save_load_roundtrip (inventory : List Item) :
    loadInventory (some (saveInventory inventory)) = inventory := by
  have hp : jsonParse (saveInventory inventory) =
      some (Json.arr (encodeItems inventory)) :=
    jsonParse_printJson (Json.arr (encodeItems inventory))
  rw [show loadInventory (some (saveInventory inventory)) =
    (match jsonParse (saveInventory inventory) with
     | none => []
     | some j => (decodeInventoryJson j).getD []) from rfl]
  rw [hp]
  show (decodeItems (encodeItems inventory)).getD [] = inventory
  rw [decodeItems_encodeItems]
  rfl

/-- C9: if the persisted inventory text fails to parse, the failure is
caught and the in-memory inventory falls back to the empty default (a
missing value also yields the empty default); the load is a total function,
so the application does not crash. -/
theorem load_malformed_spec (s : String) (h : jsonParse s = none) :
    loadInventory (some s) = [] ∧ loadInventory none = [] := by
  constructor
  · rw [show loadInventory (some s) =
      (match jsonParse s with
       | none => []
       | some j => (decodeInventoryJson j).getD []) from rfl]
    rw [h]
  · rfl

theorem load_malformed_spec_witness :
    loadInventory (some ("\x7b")) = [] ∧ loadInventory none = [] :=
  load_malformed_spec ("\x7b") rfl

end SmartPantry
